import Mathlib

/-! RISC-V capability discovery and alternative patching

A shallow embedding of `arch/riscv/kernel/cpufeature.c` (ISA string parsing,
capability merge across harts, feature probes, alternative patching), of the
cache routines of `arch/riscv/include/asm/cacheflush.h`, of the DMA
synchronisation routines of `arch/riscv/mm/dma-noncoherent.c` and
`arch/riscv/mm/dma-mapping.c`, and of the interrupt handler of
`arch/riscv/kernel/sbi-ipi.c`.

Conventions of the embedding

* `unsigned long` values are natural numbers.  The only operations applied to
  them are `|`, `&`, `1UL << k` with `k ≤ 22` and `& ~mask`; none of them can
  leave the word, so no reduction modulo `2 ^ BITS_PER_LONG` is needed.
* A C string is the list of its characters before the terminating NUL.
* Constants that live in headers which are not part of the sources at hand
  (`COMPAT_HWCAP_ISA_*`, `RISCV_ALTERNATIVES_*`, `enum dma_data_direction`,
  `L1_CACHE_BYTES`, `PG_arch_1`, `BITS_PER_LONG`) are parameters.
* A `switch` is a cascade of tests in the order of its `case` labels (the labels
  of a C `switch` are distinct).
* A loop whose end is not evident from its shape takes a fuel argument and
  yields `none` when the fuel runs out; the statements show that it ends.
* The line loop of the instruction-cache routines adds modulo `2 ^ 64`.
-/

namespace Riscv

/-! ## Build configuration and header constants -/

/-- Preprocessor switches that `cpufeature.c` tests. -/
structure Kconfig where
  CONFIG_32BIT : Bool
  CONFIG_64BIT : Bool
  CONFIG_MMU : Bool
deriving DecidableEq, Repr

/-- The legacy capability masks `COMPAT_HWCAP_ISA_*`.  They are declared in
`asm/hwcap.h`, which is not among the sources, so they are a parameter of the
embedding. -/
structure Hwcap where
  COMPAT_HWCAP_ISA_I : Nat
  COMPAT_HWCAP_ISA_M : Nat
  COMPAT_HWCAP_ISA_A : Nat
  COMPAT_HWCAP_ISA_F : Nat
  COMPAT_HWCAP_ISA_D : Nat
  COMPAT_HWCAP_ISA_C : Nat
deriving DecidableEq, Repr

/-- A 64-bit build with an MMU. -/
def rv64_mmu : Kconfig :=
  { CONFIG_32BIT := false, CONFIG_64BIT := true, CONFIG_MMU := true }

/-- Modelled from the spec: the "fixed historical bit layout" of the legacy
capability mask, one bit per base extension I, M, A, F, D, C.  The header that
fixes the numbers is missing; the layout used here is the one the diagnostic
loop of `riscv_fill_hwcap` prints (`bit i` is shown as the letter `'a' + i`).
It is only used to instantiate the parameter `Hwcap` on concrete inputs. -/
def letter_hwcap : Hwcap :=
  { COMPAT_HWCAP_ISA_I := 1 <<< 8
    COMPAT_HWCAP_ISA_M := 1 <<< 12
    COMPAT_HWCAP_ISA_A := 1 <<< 0
    COMPAT_HWCAP_ISA_F := 1 <<< 5
    COMPAT_HWCAP_ISA_D := 1 <<< 3
    COMPAT_HWCAP_ISA_C := 1 <<< 2 }

/-! ## C string helpers -/

/-- The test `strncmp(a, b, n) == 0` of the C library, on strings given by
their characters before the NUL: the first `n` characters agree, or both
strings end together before that. -/
def strncmp_eq : List Char → List Char → Nat → Bool
  | _, _, 0 => true
  | [], [], _ + 1 => true
  | x :: xs, y :: ys, n + 1 => x == y && strncmp_eq xs ys n
  | [], _ :: _, _ + 1 => false
  | _ :: _, [], _ + 1 => false

/-! ## `riscv_fill_hwcap` -/

/-- The table `isa2hwcap[256]` after the six pairs of assignments at the top of
`riscv_fill_hwcap`; every other entry keeps its static initialiser `0`. -/
def isa2hwcap (hw : Hwcap) (c : Char) : Nat :=
  if c = 'i' ∨ c = 'I' then hw.COMPAT_HWCAP_ISA_I
  else if c = 'm' ∨ c = 'M' then hw.COMPAT_HWCAP_ISA_M
  else if c = 'a' ∨ c = 'A' then hw.COMPAT_HWCAP_ISA_A
  else if c = 'f' ∨ c = 'F' then hw.COMPAT_HWCAP_ISA_F
  else if c = 'd' ∨ c = 'D' then hw.COMPAT_HWCAP_ISA_D
  else if c = 'c' ∨ c = 'C' then hw.COMPAT_HWCAP_ISA_C
  else 0

/-- The two per-hart accumulators `this_hwcap` and `this_isa`. -/
structure HartCaps where
  this_hwcap : Nat
  this_isa : Nat
deriving DecidableEq, Repr

/-- Body of the character loop `for (; i < isa_len; ++i)`. -/
def isa_char_step (hw : Hwcap) (acc : HartCaps) (c : Char) : HartCaps :=
  { this_hwcap := acc.this_hwcap ||| isa2hwcap hw c
    this_isa :=
      if 'a' ≤ c ∧ c < 'x' then acc.this_isa ||| (1 <<< (c.toNat - 'a'.toNat))
      else acc.this_isa }

/-- The character loop run over the characters `isa[i], ..., isa[isa_len - 1]`. -/
def isa_scan (hw : Hwcap) (chars : List Char) (acc : HartCaps) : HartCaps :=
  chars.foldl (isa_char_step hw) acc

/-- Start index `i` of the character loop: `4` when the string starts with the
width token of the build, else `0`. -/
def isa_start (cfg : Kconfig) (isa : List Char) : Nat :=
  if cfg.CONFIG_32BIT then
    (if strncmp_eq isa ['r', 'v', '3', '2'] 4 then 4 else 0)
  else if cfg.CONFIG_64BIT then
    (if strncmp_eq isa ['r', 'v', '6', '4'] 4 then 4 else 0)
  else 0

/-- Per-hart parse of one "riscv,isa" string: `this_hwcap` and `this_isa` as they
stand after the character loop. -/
def parse_isa (cfg : Kconfig) (hw : Hwcap) (isa : List Char) : HartCaps :=
  isa_scan hw (isa.drop (isa_start cfg isa)) { this_hwcap := 0, this_isa := 0 }

/-- What the loop of `riscv_fill_hwcap` reads from one cpu node: the value of
`riscv_of_processor_hartid(node)` (negative when the node has no valid hart id)
and the string delivered by `of_property_read_string(node, "riscv,isa", &isa)`
(`none` when that call fails). -/
structure CpuNode where
  hartid : Int
  isa : Option (List Char)
deriving DecidableEq, Repr

/-- The globals written by `riscv_fill_hwcap`: `elf_hwcap` and word 0 of the
host ISA bitmap `riscv_isa`. -/
structure HwcapState where
  elf_hwcap : Nat
  riscv_isa0 : Nat
deriving DecidableEq, Repr

/-- Merge step at the end of the loop body, for one accumulator:
`if (acc) acc &= this; else acc = this;`. -/
def merge_word (acc this : Nat) : Nat :=
  if acc ≠ 0 then acc &&& this else this

/-- One iteration of `for_each_of_cpu_node(node)` in `riscv_fill_hwcap`. -/
def fill_hwcap_node (cfg : Kconfig) (hw : Hwcap) (st : HwcapState) (node : CpuNode) :
    HwcapState :=
  if node.hartid < 0 then st
  else
    match node.isa with
    | none => st
    | some isa =>
      let this := parse_isa cfg hw isa
      { elf_hwcap := merge_word st.elf_hwcap this.this_hwcap
        riscv_isa0 := merge_word st.riscv_isa0 this.this_isa }

/-- State of `riscv_fill_hwcap` when the loop over the cpu nodes is left (both
globals start at zero). -/
def riscv_fill_hwcap_merged (cfg : Kconfig) (hw : Hwcap) (nodes : List CpuNode) :
    HwcapState :=
  nodes.foldl (fill_hwcap_node cfg hw) { elf_hwcap := 0, riscv_isa0 := 0 }

/-- The word `a & ~b`: the bits of `a` that are not bits of `b`.  Written without
a complement, which would need the word width: clearing from `a` the bits it
shares with `b` gives the same word for every width. -/
def and_not (a b : Nat) : Nat := a ^^^ (a &&& b)

/-- The F-without-D correction: `elf_hwcap &= ~COMPAT_HWCAP_ISA_F` under the
guard of the source. -/
def mask_f_without_d (hw : Hwcap) (st : HwcapState) : HwcapState :=
  if (st.elf_hwcap &&& hw.COMPAT_HWCAP_ISA_F ≠ 0) ∧
      ¬ (st.elf_hwcap &&& hw.COMPAT_HWCAP_ISA_D ≠ 0) then
    { st with elf_hwcap := and_not st.elf_hwcap hw.COMPAT_HWCAP_ISA_F }
  else st

/-- The globals left by `riscv_fill_hwcap` (the diagnostic printing and the
static key do not touch them). -/
def riscv_fill_hwcap (cfg : Kconfig) (hw : Hwcap) (nodes : List CpuNode) : HwcapState :=
  mask_f_without_d hw (riscv_fill_hwcap_merged cfg hw nodes)

/-- A present hart with a readable ISA string. -/
def hart (id : Nat) (isa : String) : CpuNode :=
  { hartid := id, isa := some isa.toList }

/-- Bitwise AND of the individually parsed ISA bitmaps of a non-empty list of
strings (the value the merge is meant to produce). -/
def isa_and (cfg : Kconfig) (hw : Hwcap) : List (List Char) → Nat
  | [] => 0
  | [s] => (parse_isa cfg hw s).this_isa
  | s :: rest => (parse_isa cfg hw s).this_isa &&& isa_and cfg hw rest

/-! ## The boot description: raw blob and parsed tree -/

/-- One node of the device tree as it lies in the structure block of the
flattened blob: its nesting depth (the root has depth `0`), its name with the
unit address (`cpu@0`), and its string properties in order. -/
structure FdtNode where
  depth : Nat
  name : String
  props : List (String × List Char)
deriving DecidableEq, Repr

/-- The device tree, given as the nodes of the blob in the order of the
structure block (a pre-order walk of the tree), root first.  The parsed tree of
the later boot stages is unflattened from this same blob. -/
abbrev Fdt := List FdtNode

/-- Name comparison of `fdt_path_offset` and `of_node_name_eq`: the node name
up to a unit address `@...` equals the wanted name. -/
def node_name_eq (name : String) (wanted : String) : Bool :=
  name.toList.takeWhile (fun c => c != '@') == wanted.toList

/-- Modelled from the spec: `fdt_path_offset(fdt, "/<name>")` of libfdt, which is
not among the sources.  It yields the offset of the first child of the root
with that name (here its index in the structure-block order), or an error
(`none`). -/
def fdt_path_offset (fdt : Fdt) (name : String) : Option Nat :=
  fdt.findIdx? (fun n => n.depth == 1 && node_name_eq n.name name)

/-- Modelled from the spec: `fdt_getprop(fdt, offset, name, NULL)` of libfdt, and
`of_property_read_string(node, name, &str)` of the parsed-tree API, neither among
the sources: the value of the named property of the node, or `NULL` / an error
code (`none`) when the node has no such property. -/
def FdtNode.getprop (node : FdtNode) (name : String) : Option (List Char) :=
  node.props.lookup name

/-- Modelled from the spec: the nodes delivered by repeated
`fdt_next_node(fdt, offset, NULL)` of libfdt (not among the sources) starting
after the node at `offset`.  With a `NULL` depth pointer the call steps to the
next node of the structure block whatever its depth, until the block ends; the
spec calls this inspecting "the raw, unparsed boot-description blob directly". -/
def fdt_nodes_after (fdt : Fdt) (offset : Nat) : List FdtNode :=
  fdt.drop (offset + 1)

/-- Children of the node at `offset` in the tree that the blob encodes: the
nodes of its subtree that lie exactly one level deeper. -/
def fdt_children (fdt : Fdt) (offset : Nat) : List FdtNode :=
  match fdt.get? offset with
  | none => []
  | some parent =>
    ((fdt.drop (offset + 1)).takeWhile (fun n => decide (parent.depth < n.depth))).filter
      (fun n => n.depth == parent.depth + 1)

/-- Modelled from the spec: the nodes visited by `for_each_of_cpu_node(node)` of
the parsed-tree API (not among the sources): the children of "/cpus" that are
named `cpu` or have `device_type = "cpu"`, in tree order. -/
def of_cpu_nodes (fdt : Fdt) : List FdtNode :=
  match fdt.findIdx? (fun n => n.depth == 1 && n.name == "cpus") with
  | none => []
  | some offset =>
    (fdt_children fdt offset).filter
      (fun n => node_name_eq n.name "cpu" || n.getprop "device_type" == some "cpu".toList)

/-- The test `!strncmp(str + 6, lit, n)` on a property value.  For a value
shorter than six characters the C code reads past the string; the embedding
then compares the empty string. -/
def suffix6_is (str : List Char) (lit : String) (n : Nat) : Bool :=
  strncmp_eq (str.drop 6) lit.toList n

/-- Loop of `cpufeature_svpbmt_check_fdt` over the nodes that `fdt_next_node`
delivers; `false` at the end of the list is the `return false` after the loop,
and the first two `false` results are the `break`. -/
def svpbmt_fdt_walk : List FdtNode → Bool
  | [] => false
  | node :: rest =>
    match node.getprop "device_type" with
    | none => false
    | some dev =>
      if dev ≠ "cpu".toList then false
      else
        match node.getprop "mmu-type" with
        | none => svpbmt_fdt_walk rest
        | some mmu_type =>
          if suffix6_is mmu_type "none" 4 then svpbmt_fdt_walk rest
          else
            match node.getprop "mmu" with
            | none => svpbmt_fdt_walk rest
            | some mmu =>
              if suffix6_is mmu "svpbmt" 6 then true else svpbmt_fdt_walk rest

/-- The boot-stage probe on the raw blob. -/
def cpufeature_svpbmt_check_fdt (fdt : Fdt) : Bool :=
  match fdt_path_offset fdt "cpus" with
  | none => false
  | some offset => svpbmt_fdt_walk (fdt_nodes_after fdt offset)

/-- Loop of `cpufeature_svpbmt_check_of` over the cpu nodes of the parsed tree. -/
def svpbmt_of_walk : List FdtNode → Bool
  | [] => false
  | node :: rest =>
    match node.getprop "mmu-type" with
    | none => svpbmt_of_walk rest
    | some mmu_type =>
      if suffix6_is mmu_type "none" 4 then svpbmt_of_walk rest
      else
        match node.getprop "mmu" with
        | none => svpbmt_of_walk rest
        | some mmu =>
          if suffix6_is mmu "svpbmt" 6 then true else svpbmt_of_walk rest

/-- The later-stage probe on the parsed tree. -/
def cpufeature_svpbmt_check_of (fdt : Fdt) : Bool :=
  svpbmt_of_walk (of_cpu_nodes fdt)

/-! ## Feature probes and the patch engine -/

/-- The stage identifiers `RISCV_ALTERNATIVES_*` tested by the probes.  They are
declared in `asm/alternative.h`, which is not among the sources, so they are a
parameter. -/
structure AltStages where
  RISCV_ALTERNATIVES_BOOT : Nat
  RISCV_ALTERNATIVES_EARLY_BOOT : Nat
deriving DecidableEq, Repr

/-- Everything the probes read: the build configuration, the stage identifiers
and the device tree handed over by the boot loader. -/
structure BootEnv where
  cfg : Kconfig
  stages : AltStages
  fdt : Fdt

/-- The probe of the page-based memory types extension. -/
def cpufeature_svpbmt_check_func (env : BootEnv) (stage : Nat) : Bool :=
  if env.cfg.CONFIG_MMU && env.cfg.CONFIG_64BIT then
    if stage = env.stages.RISCV_ALTERNATIVES_EARLY_BOOT then false
    else if stage = env.stages.RISCV_ALTERNATIVES_BOOT then
      cpufeature_svpbmt_check_fdt env.fdt
    else cpufeature_svpbmt_check_of env.fdt
  else false

/-- The probe of the cache-maintenance extension: every arm of its `switch`
returns `false`. -/
def cpufeature_cmo_check_func (env : BootEnv) (stage : Nat) : Bool :=
  if stage = env.stages.RISCV_ALTERNATIVES_EARLY_BOOT then false
  else if stage = env.stages.RISCV_ALTERNATIVES_BOOT then false
  else false

/-- One entry of the registry. -/
structure cpufeature_info where
  name : String
  check_func : Nat → Bool

/-- Modelled from the spec: `CPUFEATURE_NUMBER` of `asm/errata_list.h`, which is
not among the sources.  The spec describes a registry of two probes, and the
array `cpufeature_list[CPUFEATURE_NUMBER]` has exactly two initialised entries. -/
def CPUFEATURE_NUMBER : Nat := 2

/-- The registry `cpufeature_list`. -/
def cpufeature_list (env : BootEnv) : List cpufeature_info :=
  [ { name := "svpbmt", check_func := cpufeature_svpbmt_check_func env },
    { name := "cmo", check_func := cpufeature_cmo_check_func env } ]

/-- Result of `cpufeature_list[idx].check_func(stage)`. -/
def feature_check (env : BootEnv) (idx stage : Nat) : Bool :=
  match (cpufeature_list env)[idx]? with
  | some info => info.check_func stage
  | none => false

/-- The mask of present features at a stage. -/
def cpufeature_probe (env : BootEnv) (stage : Nat) : Nat :=
  (List.range CPUFEATURE_NUMBER).foldl
    (fun cpu_req_feature idx =>
      if feature_check env idx stage then cpu_req_feature ||| (1 <<< idx)
      else cpu_req_feature) 0

/-- One record of the alternatives table (`struct alt_entry`). -/
structure alt_entry where
  old_ptr : Nat
  alt_ptr : Nat
  vendor_id : Nat
  alt_len : Nat
  errata_id : Nat
deriving DecidableEq, Repr

/-- Memory: the byte stored at every address. -/
abbrev Mem := Nat → Nat

/-- Modelled from the spec: `patch_text_nosync(addr, insns, len)` of
`arch/riscv/kernel/patch.c`, which is not among the sources.  The spec has it
"overwrite the original bytes at their live address with replacement bytes of
the given length": the `len` bytes at `insns` are copied to `addr`. -/
def patch_text_nosync (mem : Mem) (addr insns len : Nat) : Mem :=
  fun a => if addr ≤ a ∧ a < addr + len then mem (insns + (a - addr)) else mem a

/-- Memory together with the record of the calls of `patch_text_nosync` made so
far (oldest first); the second component is a ghost trace. -/
structure PatchState where
  mem : Mem
  patched : List alt_entry

/-- Body of the loop `for (alt = begin; alt < end; alt++)`.  The local
`cpu_apply_feature` is written and never read, and is left out. -/
def patch_entry (cpu_req_feature : Nat) (st : PatchState) (alt : alt_entry) : PatchState :=
  if alt.vendor_id ≠ 0 then st
  else if alt.errata_id ≥ CPUFEATURE_NUMBER then st
  else
    let tmp := 1 <<< alt.errata_id
    if cpu_req_feature &&& tmp ≠ 0 then
      { mem := patch_text_nosync st.mem alt.old_ptr alt.alt_ptr alt.alt_len
        patched := st.patched ++ [alt] }
    else st

/-- The patch engine over the table `[begin, end)`. -/
def riscv_cpufeature_patch_func (env : BootEnv) (table : List alt_entry) (stage : Nat)
    (st : PatchState) : PatchState :=
  table.foldl (patch_entry (cpufeature_probe env stage)) st

/-! ## Vocabulary of the statements -/

/-- A cpu node that the loop of `riscv_fill_hwcap` passes over: no valid hart
id, or no readable "riscv,isa" string. -/
def CpuNode.skipped (node : CpuNode) : Bool :=
  decide (node.hartid < 0) || node.isa.isNone

/-- A record that the patch engine is to apply at a stage: generic vendor,
registered feature, feature present. -/
def alt_entry.selected (env : BootEnv) (stage : Nat) (alt : alt_entry) : Bool :=
  alt.vendor_id == 0 && decide (alt.errata_id < CPUFEATURE_NUMBER) &&
    feature_check env alt.errata_id stage

/-- A generic-vendor record that names a feature outside the registry. -/
def alt_entry.unregistered (alt : alt_entry) : Bool :=
  alt.vendor_id == 0 && decide (CPUFEATURE_NUMBER ≤ alt.errata_id)

/-- A generic-vendor record of feature `f`. -/
def alt_entry.of_feature (f : Nat) (alt : alt_entry) : Bool :=
  alt.vendor_id == 0 && alt.errata_id == f

/-- The copy that one record asks for. -/
def apply_alt (mem : Mem) (alt : alt_entry) : Mem :=
  patch_text_nosync mem alt.old_ptr alt.alt_ptr alt.alt_len

/-- Stage identifiers with distinct values, to instantiate `AltStages`. -/
def sample_stages : AltStages :=
  { RISCV_ALTERNATIVES_BOOT := 0, RISCV_ALTERNATIVES_EARLY_BOOT := 2 }

/-- A property with a string value. -/
def prop (name value : String) : String × List Char := (name, value.toList)

/-- A cpu node of depth 2 (child of "/cpus") with the given extra properties. -/
def cpu_node (name : String) (props : List (String × List Char)) : FdtNode :=
  { depth := 2, name := name, props := prop "device_type" "cpu" :: props }

/-- Device tree with a single hart that has an MMU and names svpbmt. -/
def dt_one_svpbmt : Fdt :=
  [ { depth := 0, name := "", props := [] },
    { depth := 1, name := "cpus", props := [] },
    cpu_node "cpu@0" [prop "mmu-type" "riscv,sv39", prop "mmu" "riscv,svpbmt"] ]

/-- Device tree with two harts, as boards describe them: every cpu node has an
`interrupt-controller` child; hart 0 has no "mmu" property, hart 1 names
svpbmt. -/
def dt_second_hart_svpbmt : Fdt :=
  [ { depth := 0, name := "", props := [] },
    { depth := 1, name := "cpus", props := [] },
    cpu_node "cpu@0" [prop "mmu-type" "riscv,sv39"],
    { depth := 3, name := "interrupt-controller",
      props := [prop "compatible" "riscv,cpu-intc"] },
    cpu_node "cpu@1" [prop "mmu-type" "riscv,sv39", prop "mmu" "riscv,svpbmt"],
    { depth := 3, name := "interrupt-controller",
      props := [prop "compatible" "riscv,cpu-intc"] } ]

/-- Device tree whose "/cpus" node starts with a `cpu-map` child, followed by one
hart that names svpbmt. -/
def dt_cpu_map_first : Fdt :=
  [ { depth := 0, name := "", props := [] },
    { depth := 1, name := "cpus", props := [] },
    { depth := 2, name := "cpu-map", props := [] },
    cpu_node "cpu@0" [prop "mmu-type" "riscv,sv39", prop "mmu" "riscv,svpbmt"] ]

/-- Boot environment of a 64-bit build with an MMU over a device tree. -/
def sample_env (fdt : Fdt) : BootEnv :=
  { cfg := rv64_mmu, stages := sample_stages, fdt := fdt }

/-- A memory with recognisable contents. -/
def sample_mem : Mem := fun a => (7 * a + 3) % 256

/-- A memory in which the bytes at `0x1000 ..` and at `0x2000 ..` differ: the
byte at `a` is the page number of `a` plus `a`, modulo 256. -/
def tagged_mem : Mem := fun a => (a / 0x1000 + a) % 256

/-- A record of the generic vendor for feature 0 (svpbmt): four bytes at
`0x2000` replace the four bytes at `0x1000`. -/
def svpbmt_record : alt_entry :=
  { old_ptr := 0x1000, alt_ptr := 0x2000, vendor_id := 0, alt_len := 4, errata_id := 0 }

/-- A record of the generic vendor that names feature 7, which is not
registered. -/
def stray_record : alt_entry :=
  { old_ptr := 0x3000, alt_ptr := 0x4000, vendor_id := 0, alt_len := 8, errata_id := 7 }

/-! ## Cache maintenance (`asm/cacheflush.h`) -/

/-- The flags word of one page together with the number of `clear_bit` calls
made on it so far (a ghost counter: one call is one unit of work). -/
structure PageFlags where
  flags : Nat
  clear_calls : Nat
deriving DecidableEq, Repr

/-- The routine `flush_dcache_page`: test the bit `PG_dcache_clean` of
`page->flags` and clear it when it is set.  `PG_dcache_clean` is `PG_arch_1`, a
bit number of `linux/page-flags.h`, which is not among the sources; it is a
parameter. -/
def flush_dcache_page (PG_dcache_clean : Nat) (page : PageFlags) : PageFlags :=
  if page.flags.testBit PG_dcache_clean then
    { flags := and_not page.flags (1 <<< PG_dcache_clean)
      clear_calls := page.clear_calls + 1 }
  else page

/-- The instructions that the instruction-cache routines issue. -/
inductive IcacheOp where
  | fence_i
  | icache_iva (addr : Nat)
  | icache_ipa (addr : Nat)
  | sync_is
deriving DecidableEq, Repr

/-- The routine `local_flush_icache_all`: one `fence.i`. -/
def local_flush_icache_all : List IcacheOp := [IcacheOp.fence_i]

/-- Number of values of a 64-bit `unsigned long`. -/
def ULONG_SIZE : Nat := 2 ^ 64

/-- Modelled from the spec: the macro `ALIGN(x, a)` of the kernel headers, which
are not among the sources: `x` "rounded to cache-line granularity" upwards,
computed in `unsigned long` as `(x + (a - 1)) & ~(a - 1)`. -/
def ALIGN (x a : Nat) : Nat := and_not ((x + (a - 1)) % ULONG_SIZE) (a - 1)

/-- The loop `for (; tmp < limit; tmp += L1_CACHE_BYTES)`: the values of `tmp`
for which the body runs, in order.  `none` when the fuel is used up before the
loop is left. -/
def icache_line_loop (L1_CACHE_BYTES limit : Nat) : Nat → Nat → Option (List Nat)
  | 0, tmp => if tmp < limit then none else some []
  | fuel + 1, tmp =>
    if tmp < limit then
      (icache_line_loop L1_CACHE_BYTES limit fuel
        ((tmp + L1_CACHE_BYTES) % ULONG_SIZE)).map (fun rest => tmp :: rest)
    else some []

/-- The inline function `flush_icache_range`: one `ICACHE_IVA` per value of
`tmp`, then `SYNC_IS`.  `L1_CACHE_BYTES` comes from `asm/cache.h`, which is not
among the sources, and is a parameter. -/
def flush_icache_range (L1_CACHE_BYTES start end_ fuel : Nat) : Option (List IcacheOp) :=
  (icache_line_loop L1_CACHE_BYTES (ALIGN end_ L1_CACHE_BYTES) fuel
      (and_not start (L1_CACHE_BYTES - 1))).map
    (fun lines => lines.map IcacheOp.icache_iva ++ [IcacheOp.sync_is])

/-- The inline function `flush_icache_range_phy`: one `ICACHE_IPA` per value of
`tmp`, then `SYNC_IS`. -/
def flush_icache_range_phy (L1_CACHE_BYTES start end_ fuel : Nat) :
    Option (List IcacheOp) :=
  (icache_line_loop L1_CACHE_BYTES (ALIGN end_ L1_CACHE_BYTES) fuel
      (and_not start (L1_CACHE_BYTES - 1))).map
    (fun lines => lines.map IcacheOp.icache_ipa ++ [IcacheOp.sync_is])

/-- Number of times the body of the line loop runs from `tmp` up to `limit`. -/
def line_count (L limit tmp : Nat) : Nat := (limit - tmp + (L - 1)) / L

/-! ## DMA synchronisation (`mm/dma-noncoherent.c`, `mm/dma-mapping.c`) -/

/-- The values of `enum dma_data_direction` that the two files test.  The enum
is declared in `linux/dma-direction.h`, which is not among the sources, so the
values are a parameter. -/
structure DmaDirections where
  DMA_BIDIRECTIONAL : Nat
  DMA_TO_DEVICE : Nat
  DMA_FROM_DEVICE : Nat
deriving DecidableEq, Repr

/-- The three operations that `ALT_CMO_OP` is called with. -/
inductive CmoOp where
  | CLEAN
  | INVAL
  | FLUSH
deriving DecidableEq, Repr

/-- What a DMA routine hands to its collaborators. -/
inductive DmaEvent where
  | cmo (op : CmoOp) (start size : Nat)
  | sbi_dma_sync (paddr size dir : Nat)
deriving DecidableEq, Repr

/-- Outcome of a DMA routine: the calls it made, in order, and whether it ran
into `BUG()`. -/
structure DmaRun where
  events : List DmaEvent
  bug : Bool
deriving DecidableEq, Repr

/-- Modelled from the spec: one use of the macro `ALT_CMO_OP(op, start, size)` of
`asm/errata_list.h`, which is not among the sources: the "clean", "invalidate"
or "flush" maintenance operation over the buffer of `size` bytes at `start`. -/
def ALT_CMO_OP (op : CmoOp) (start size : Nat) : DmaRun :=
  { events := [DmaEvent.cmo op start size], bug := false }

/-- The direct cache-maintenance backend, `arch/riscv/mm/dma-noncoherent.c`;
`phys_to_virt` (not among the sources) is a parameter. -/
def dma_noncoherent.arch_sync_dma_for_device (d : DmaDirections) (phys_to_virt : Nat → Nat)
    (paddr size dir : Nat) : DmaRun :=
  if dir = d.DMA_TO_DEVICE then ALT_CMO_OP CmoOp.CLEAN (phys_to_virt paddr) size
  else if dir = d.DMA_FROM_DEVICE then ALT_CMO_OP CmoOp.INVAL (phys_to_virt paddr) size
  else if dir = d.DMA_BIDIRECTIONAL then ALT_CMO_OP CmoOp.FLUSH (phys_to_virt paddr) size
  else { events := [], bug := false }

/-- The routine `arch_sync_dma_for_cpu` of `dma-noncoherent.c`. -/
def dma_noncoherent.arch_sync_dma_for_cpu (d : DmaDirections) (phys_to_virt : Nat → Nat)
    (paddr size dir : Nat) : DmaRun :=
  if dir = d.DMA_TO_DEVICE then { events := [], bug := false }
  else if dir = d.DMA_FROM_DEVICE ∨ dir = d.DMA_BIDIRECTIONAL then
    ALT_CMO_OP CmoOp.INVAL (phys_to_virt paddr) size
  else { events := [], bug := false }

/-- The firmware-call backend, `arch/riscv/mm/dma-mapping.c`. -/
def dma_mapping.arch_sync_dma_for_device (d : DmaDirections) (paddr size dir : Nat) : DmaRun :=
  if dir = d.DMA_TO_DEVICE ∨ dir = d.DMA_FROM_DEVICE ∨ dir = d.DMA_BIDIRECTIONAL then
    { events := [DmaEvent.sbi_dma_sync paddr size dir], bug := false }
  else { events := [], bug := true }

/-- The routine `arch_sync_dma_for_cpu` of `dma-mapping.c`. -/
def dma_mapping.arch_sync_dma_for_cpu (d : DmaDirections) (paddr size dir : Nat) : DmaRun :=
  if dir = d.DMA_TO_DEVICE then { events := [], bug := false }
  else if dir = d.DMA_FROM_DEVICE ∨ dir = d.DMA_BIDIRECTIONAL then
    { events := [DmaEvent.sbi_dma_sync paddr size dir], bug := false }
  else { events := [], bug := true }

/-- Direction values with distinct numbers, to instantiate `DmaDirections`. -/
def sample_directions : DmaDirections :=
  { DMA_BIDIRECTIONAL := 0, DMA_TO_DEVICE := 1, DMA_FROM_DEVICE := 2 }

/-- A linear map with a fixed offset, to instantiate `phys_to_virt`. -/
def sample_phys_to_virt (paddr : Nat) : Nat := paddr + 0x1000000

/-! ## The receive path of the SBI IPI controller (`kernel/sbi-ipi.c`) -/

/-- The per-cpu words `sbi_ipi_bits` and what the handler did so far (ghost
traces): the `hwirq` numbers handed to `generic_handle_domain_irq`, the ones
warned about, and the number of `csr_clear(CSR_IP, IE_SIE)`. -/
structure IpiState where
  sbi_ipi_bits : Nat → Nat
  dispatched : List Nat
  warned : List Nat
  sie_clears : Nat

/-- The bit numbers visited by `for_each_set_bit(hwirq, &irqs, BITS_PER_LONG)`:
the set bits of `irqs` below `BITS_PER_LONG`, in ascending order. -/
def for_each_set_bit (irqs BITS_PER_LONG : Nat) : List Nat :=
  (List.range BITS_PER_LONG).filter (fun b => irqs.testBit b)

/-- Body of the `for_each_set_bit` loop.  The dispatch routine
`generic_handle_domain_irq(sbi_ipi_domain, hwirq)` is a parameter: it may change
the per-cpu words and returns an error code. -/
def ipi_dispatch (generic_handle_domain_irq : Nat → (Nat → Nat) → (Nat → Nat) × Int)
    (st : IpiState) (hwirq : Nat) : IpiState :=
  let r := generic_handle_domain_irq hwirq st.sbi_ipi_bits
  { sbi_ipi_bits := r.1
    dispatched := st.dispatched ++ [hwirq]
    warned := if r.2 ≠ 0 then st.warned ++ [hwirq] else st.warned
    sie_clears := st.sie_clears }

/-- The handler `sbi_ipi_handle_irq` run on hart `cpu`: the `while (true)` loop
with `irqs = xchg(bits, 0)`.  `none` when the fuel is used up before `goto done`. -/
def sbi_ipi_handle_irq (generic_handle_domain_irq : Nat → (Nat → Nat) → (Nat → Nat) × Int)
    (BITS_PER_LONG cpu : Nat) : Nat → IpiState → Option IpiState
  | 0, _ => none
  | fuel + 1, st =>
    let irqs := st.sbi_ipi_bits cpu
    let st1 : IpiState :=
      { sbi_ipi_bits := Function.update st.sbi_ipi_bits cpu 0
        dispatched := st.dispatched
        warned := st.warned
        sie_clears := st.sie_clears + 1 }
    if irqs = 0 then some st1
    else
      sbi_ipi_handle_irq generic_handle_domain_irq BITS_PER_LONG cpu fuel
        ((for_each_set_bit irqs BITS_PER_LONG).foldl
          (ipi_dispatch generic_handle_domain_irq) st1)

/-- A dispatch routine that touches no pending word and fails for `hwirq` 3. -/
def sample_dispatch (hwirq : Nat) (words : Nat → Nat) : (Nat → Nat) × Int :=
  (words, if hwirq = 3 then -22 else 0)

/-- Pending words of a two-hart system: hart 0 has bits 1, 3 and 4 set, hart 1
has bit 0 set. -/
def sample_ipi_state : IpiState :=
  { sbi_ipi_bits := fun cpu => if cpu = 0 then 0x1a else if cpu = 1 then 1 else 0
    dispatched := []
    warned := []
    sie_clears := 0 }

/-! ## Vocabulary of the later statements -/

/-- Bitwise AND of a non-empty list of words. -/
def and_words : List Nat → Nat
  | [] => 0
  | [w] => w
  | w :: rest => w &&& and_words rest

/-- The per-hart values of a node with a readable string. -/
def CpuNode.caps (cfg : Kconfig) (hw : Hwcap) (node : CpuNode) : HartCaps :=
  parse_isa cfg hw (node.isa.getD [])

/-- The address `x` rounded down to a multiple of the line size `L`. -/
def round_down (L x : Nat) : Nat := L * (x / L)

/-- The address `x` rounded up to a multiple of the line size `L`. -/
def round_up (L x : Nat) : Nat := L * ((x + (L - 1)) / L)

/-- The line-aligned addresses from `start` rounded down to (excluding) `end`
rounded up, in ascending order. -/
def lines_of_range (L start end_ : Nat) : List Nat :=
  List.range' (round_down L start) (line_count L (round_up L end_) (round_down L start)) L

/-! ## Lemmas on the per-hart parse -/

theorem isa_scan_append (hw : Hwcap) (a b : List Char) (acc : HartCaps) :
    isa_scan hw (a ++ b) acc = isa_scan hw b (isa_scan hw a acc) := by
  simp [isa_scan, List.foldl_append]

theorem isa_scan_cons (hw : Hwcap) (c : Char) (l : List Char) (acc : HartCaps) :
    isa_scan hw (c :: l) acc = isa_scan hw l (isa_char_step hw acc c) := rfl

/-- The character loop only ever ORs bits into its accumulators. -/
theorem isa_scan_or (hw : Hwcap) (l : List Char) (acc : HartCaps) :
    isa_scan hw l acc =
      { this_hwcap := acc.this_hwcap ||| (isa_scan hw l ⟨0, 0⟩).this_hwcap
        this_isa := acc.this_isa ||| (isa_scan hw l ⟨0, 0⟩).this_isa } := by
  induction l generalizing acc with
  | nil => simp [isa_scan]
  | cons c l ih =>
    rw [isa_scan_cons, ih, isa_scan_cons hw c l ⟨0, 0⟩, ih (isa_char_step hw ⟨0, 0⟩ c)]
    by_cases h : 'a' ≤ c ∧ c < 'x' <;> simp [isa_char_step, h, Nat.lor_assoc]

theorem isa2hwcap_x (hw : Hwcap) : isa2hwcap hw 'x' = 0 := by
  simp [isa2hwcap]

theorem isa_char_step_x (hw : Hwcap) (acc : HartCaps) : isa_char_step hw acc 'x' = acc := by
  have h : ¬ ('x' : Char) < 'x' := by decide
  simp [isa_char_step, isa2hwcap_x, h]

/-- Inserting the letter `x` after `p` does not move the start of the loop. -/
theorem drop_isa_start_marker (cfg : Kconfig) (p t : List Char) :
    (p ++ 'x' :: t).drop (isa_start cfg (p ++ 'x' :: t)) =
      p.drop (isa_start cfg p) ++ 'x' :: t := by
  have h3 : ('x' == '2') = false := by decide
  have h6 : ('x' == '4') = false := by decide
  have hv : ('x' == 'v') = false := by decide
  have hr : ('x' == 'r') = false := by decide
  rcases p with _ | ⟨a, _ | ⟨b, _ | ⟨c, _ | ⟨d, p⟩⟩⟩⟩
  · simp [isa_start, strncmp_eq, hr]
  · simp [isa_start, strncmp_eq, hv]
  · simp [isa_start, strncmp_eq]
  · simp [isa_start, strncmp_eq, h3, h6]
  · simp only [isa_start, strncmp_eq, List.cons_append, Bool.and_true]
    split_ifs <;> simp

/-! ## Lemmas on the merge over the cpu nodes -/

theorem fill_hwcap_node_skipped (cfg : Kconfig) (hw : Hwcap) (st : HwcapState)
    (node : CpuNode) (h : node.skipped = true) : fill_hwcap_node cfg hw st node = st := by
  unfold CpuNode.skipped at h
  unfold fill_hwcap_node
  by_cases hid : node.hartid < 0
  · simp [hid]
  · simp only [hid, decide_False, Bool.false_or] at h
    cases hisa : node.isa with
    | none => simp
    | some isa => simp [hisa] at h

theorem foldl_fill_hwcap_filter (cfg : Kconfig) (hw : Hwcap) (nodes : List CpuNode)
    (st : HwcapState) :
    nodes.foldl (fill_hwcap_node cfg hw) st =
      (nodes.filter (fun n => !n.skipped)).foldl (fill_hwcap_node cfg hw) st := by
  induction nodes generalizing st with
  | nil => rfl
  | cons n rest ih =>
    by_cases h : n.skipped = true
    · simp [List.filter, h, fill_hwcap_node_skipped cfg hw st n h, ih]
    · simp only [Bool.not_eq_true] at h
      simp [List.filter, h, ih]

theorem testBit_and_not (a b i : Nat) :
    (and_not a b).testBit i = (a.testBit i && !b.testBit i) := by
  unfold and_not
  rw [Nat.testBit_xor, Nat.testBit_land]
  cases a.testBit i <;> cases b.testBit i <;> rfl

theorem and_not_land_self (m f : Nat) : and_not m f &&& f = 0 := by
  apply Nat.eq_of_testBit_eq
  intro i
  rw [Nat.testBit_land, testBit_and_not]
  cases m.testBit i <;> cases f.testBit i <;> simp

theorem and_not_land_disjoint (m f d : Nat) (h : f &&& d = 0) :
    and_not m f &&& d = m &&& d := by
  apply Nat.eq_of_testBit_eq
  intro i
  have hi : (f &&& d).testBit i = false := by simp [h]
  rw [Nat.testBit_land] at hi
  rw [Nat.testBit_land, Nat.testBit_land, testBit_and_not]
  cases hf : f.testBit i <;> cases hd : d.testBit i <;> simp_all

/-! ## Claims on `riscv_fill_hwcap` -/

/-- C1 (the code departs from the claim): with the three harts "rv64i", "rv64m"
and "rv64c" on a 64-bit build, no letter is reported by every hart, so the AND
of the three individually parsed bitmaps is zero; yet `riscv_fill_hwcap` leaves
bit 2 (letter `c`) set in `riscv_isa[0]`, and `elf_hwcap` likewise holds the
mask of C.  The accumulator reached zero after the second hart and the merge
step took it for "not yet written".  On the pair "rv64imafdc", "rv64imac" of the
spec, where the intersection is not empty, the result is the AND: the bits of
i, m, a, c. -/
theorem C1_empty_intersection_restarts_merge :
    (riscv_fill_hwcap rv64_mmu letter_hwcap
        [hart 0 "rv64imafdc", hart 1 "rv64imac"]).riscv_isa0 =
      (1 <<< 8) ||| (1 <<< 12) ||| (1 <<< 0) ||| (1 <<< 2) ∧
    isa_and rv64_mmu letter_hwcap ["rv64i".toList, "rv64m".toList, "rv64c".toList] = 0 ∧
    (riscv_fill_hwcap rv64_mmu letter_hwcap
        [hart 0 "rv64i", hart 1 "rv64m", hart 2 "rv64c"]).riscv_isa0 = 1 <<< 2 ∧
    (riscv_fill_hwcap rv64_mmu letter_hwcap
        [hart 0 "rv64i", hart 1 "rv64m", hart 2 "rv64c"]).elf_hwcap =
      letter_hwcap.COMPAT_HWCAP_ISA_C := by
  decide

/-- C2: for every list of cpu nodes, the final `elf_hwcap` never has F set with
D clear; the final mask is the merged mask with at most the bits of F cleared:
every bit outside F keeps the value it had before the correction, and the D
bits are those of the merged mask.  The masks of F and D are taken to be
disjoint, as two distinct capability bits are. -/
theorem C2_f_without_d_masked (cfg : Kconfig) (hw : Hwcap) (nodes : List CpuNode)
    (hFD : hw.COMPAT_HWCAP_ISA_F &&& hw.COMPAT_HWCAP_ISA_D = 0) :
    ¬ ((riscv_fill_hwcap cfg hw nodes).elf_hwcap &&& hw.COMPAT_HWCAP_ISA_F ≠ 0 ∧
        (riscv_fill_hwcap cfg hw nodes).elf_hwcap &&& hw.COMPAT_HWCAP_ISA_D = 0) ∧
    (∀ b, hw.COMPAT_HWCAP_ISA_F.testBit b = false →
        (riscv_fill_hwcap cfg hw nodes).elf_hwcap.testBit b =
          (riscv_fill_hwcap_merged cfg hw nodes).elf_hwcap.testBit b) ∧
    (riscv_fill_hwcap cfg hw nodes).elf_hwcap &&& hw.COMPAT_HWCAP_ISA_D =
      (riscv_fill_hwcap_merged cfg hw nodes).elf_hwcap &&& hw.COMPAT_HWCAP_ISA_D ∧
    (∀ b, (riscv_fill_hwcap cfg hw nodes).elf_hwcap.testBit b = true →
        (riscv_fill_hwcap_merged cfg hw nodes).elf_hwcap.testBit b = true) ∧
    (riscv_fill_hwcap cfg hw nodes).riscv_isa0 =
      (riscv_fill_hwcap_merged cfg hw nodes).riscv_isa0 := by
  unfold riscv_fill_hwcap mask_f_without_d
  generalize riscv_fill_hwcap_merged cfg hw nodes = st
  by_cases hg : (st.elf_hwcap &&& hw.COMPAT_HWCAP_ISA_F ≠ 0) ∧
      ¬ (st.elf_hwcap &&& hw.COMPAT_HWCAP_ISA_D ≠ 0)
  · rw [if_pos hg]
    refine ⟨?_, ?_, ?_, ?_, rfl⟩
    · intro h
      exact h.1 (and_not_land_self _ _)
    · intro b hb
      simp [testBit_and_not, hb]
    · exact and_not_land_disjoint _ _ _ hFD
    · intro b hb
      simp only [testBit_and_not, Bool.and_eq_true] at hb
      exact hb.1
  · rw [if_neg hg]
    refine ⟨?_, fun _ _ => rfl, rfl, fun _ h => h, rfl⟩
    intro h
    exact hg ⟨h.1, fun hd => hd h.2⟩

/-- Witness of C2: hart 0 reports F and D, hart 1 reports F only, so the merged
mask has F without D and the correction fires. -/
theorem C2_f_without_d_masked_witness :
    (riscv_fill_hwcap_merged rv64_mmu letter_hwcap
        [hart 0 "rv64imafdc", hart 1 "rv64imafc"]).elf_hwcap = 0x1125 ∧
    (riscv_fill_hwcap rv64_mmu letter_hwcap
        [hart 0 "rv64imafdc", hart 1 "rv64imafc"]).elf_hwcap = 0x1105 ∧
    ¬ ((riscv_fill_hwcap rv64_mmu letter_hwcap
          [hart 0 "rv64imafdc", hart 1 "rv64imafc"]).elf_hwcap &&&
            letter_hwcap.COMPAT_HWCAP_ISA_F ≠ 0 ∧
        (riscv_fill_hwcap rv64_mmu letter_hwcap
          [hart 0 "rv64imafdc", hart 1 "rv64imafc"]).elf_hwcap &&&
            letter_hwcap.COMPAT_HWCAP_ISA_D = 0) :=
  ⟨by decide, by decide,
    (C2_f_without_d_masked rv64_mmu letter_hwcap
      [hart 0 "rv64imafdc", hart 1 "rv64imafc"] (by decide)).1⟩

/-- C3: for every list of cpu nodes, `riscv_fill_hwcap` leaves the same
`elf_hwcap` and `riscv_isa[0]` as on the list from which the nodes without a
valid hart id or without a readable "riscv,isa" string have been removed. -/
theorem C3_skipped_nodes_contribute_nothing (cfg : Kconfig) (hw : Hwcap)
    (nodes : List CpuNode) :
    riscv_fill_hwcap cfg hw nodes =
      riscv_fill_hwcap cfg hw (nodes.filter (fun n => !n.skipped)) := by
  unfold riscv_fill_hwcap riscv_fill_hwcap_merged
  rw [foldl_fill_hwcap_filter]

/-- C4, as stated, fails: on a 64-bit build the string "rv64imac" followed by
the marker `x` and the letters "theadba" parses to other ISA bitmap bits and to
another legacy mask than "rv64imac" alone (the letters after the marker add the
ISA bits of t, h, e, d, b and the legacy bit of D). -/
theorem C4_letters_after_marker_are_parsed :
    (parse_isa rv64_mmu letter_hwcap ("rv64imac".toList ++ ['x'] ++ "theadba".toList)).this_isa ≠
      (parse_isa rv64_mmu letter_hwcap "rv64imac".toList).this_isa ∧
    (parse_isa rv64_mmu letter_hwcap ("rv64imac".toList ++ ['x'] ++ "theadba".toList)).this_hwcap ≠
      (parse_isa rv64_mmu letter_hwcap "rv64imac".toList).this_hwcap := by
  decide

/-- C4 (amended): for every prefix `p` and suffix `t`, the marker letter `x`
itself sets no bit, and the characters after it are interpreted one by one like
any other: parsing `p ++ "x" ++ t` yields, in the ISA bitmap and in the legacy
mask, the bits of parsing `p` together with the bits that the character loop
derives from the characters of `t`. -/
theorem C4_marker_letter_sets_no_bit (cfg : Kconfig) (hw : Hwcap) (p t : List Char) :
    parse_isa cfg hw (p ++ ['x'] ++ t) =
      { this_hwcap := (parse_isa cfg hw p).this_hwcap ||| (isa_scan hw t ⟨0, 0⟩).this_hwcap
        this_isa := (parse_isa cfg hw p).this_isa ||| (isa_scan hw t ⟨0, 0⟩).this_isa } := by
  unfold parse_isa
  rw [List.append_assoc, List.singleton_append, drop_isa_start_marker, isa_scan_append,
    isa_scan_cons, isa_char_step_x, isa_scan_or]

/-! ## Lemmas on the patch engine -/

/-- Bit `idx` of the probe mask is the result of the probe `idx`. -/
theorem cpufeature_probe_bit (env : BootEnv) (stage idx : Nat) (h : idx < CPUFEATURE_NUMBER) :
    (cpufeature_probe env stage &&& (1 <<< idx) ≠ 0) ↔ feature_check env idx stage = true := by
  have hr : List.range CPUFEATURE_NUMBER = [0, 1] := by decide
  unfold cpufeature_probe
  rw [hr]
  simp only [List.foldl]
  unfold CPUFEATURE_NUMBER at h
  interval_cases idx <;>
    cases feature_check env 0 stage <;> cases feature_check env 1 stage <;> decide

theorem patch_entry_eq (env : BootEnv) (stage : Nat) (st : PatchState) (alt : alt_entry) :
    patch_entry (cpufeature_probe env stage) st alt =
      if alt.selected env stage = true then
        { mem := apply_alt st.mem alt, patched := st.patched ++ [alt] }
      else st := by
  unfold patch_entry alt_entry.selected
  by_cases hv : alt.vendor_id = 0
  · by_cases he : alt.errata_id < CPUFEATURE_NUMBER
    · have hb := cpufeature_probe_bit env stage alt.errata_id he
      by_cases hc : feature_check env alt.errata_id stage = true
      · have hb2 := hb.2 hc
        simp [hv, he, hc, hb2, apply_alt]
      · have hb2 : ¬ (cpufeature_probe env stage &&& (1 <<< alt.errata_id) ≠ 0) :=
          fun h => hc (hb.1 h)
        simp only [Bool.not_eq_true] at hc
        simp only [ne_eq, not_not] at hb2
        simp [hv, he, hc, hb2]
    · simp [hv, he, Nat.le_of_not_lt he]
  · simp [hv]

theorem patch_func_cons (env : BootEnv) (alt : alt_entry) (table : List alt_entry)
    (stage : Nat) (st : PatchState) :
    riscv_cpufeature_patch_func env (alt :: table) stage st =
      riscv_cpufeature_patch_func env table stage
        (patch_entry (cpufeature_probe env stage) st alt) := rfl

/-- The engine as a fold over the selected records. -/
theorem patch_func_eq (env : BootEnv) (table : List alt_entry) (stage : Nat)
    (st : PatchState) :
    riscv_cpufeature_patch_func env table stage st =
      { mem := (table.filter (fun alt => alt.selected env stage)).foldl apply_alt st.mem
        patched := st.patched ++ table.filter (fun alt => alt.selected env stage) } := by
  induction table generalizing st with
  | nil => simp [riscv_cpufeature_patch_func]
  | cons alt table ih =>
    rw [patch_func_cons, ih, patch_entry_eq]
    by_cases h : alt.selected env stage = true
    · simp [List.filter, h]
    · simp only [Bool.not_eq_true] at h
      simp [List.filter, h]

/-- Copies leave every byte outside their target ranges as it was. -/
theorem foldl_apply_alt_outside (l : List alt_entry) (mem : Mem) (a : Nat)
    (h : ∀ alt ∈ l, ¬ (alt.old_ptr ≤ a ∧ a < alt.old_ptr + alt.alt_len)) :
    l.foldl apply_alt mem a = mem a := by
  induction l generalizing mem with
  | nil => rfl
  | cons alt l ih =>
    rw [List.foldl_cons, ih _ (fun x hx => h x (List.mem_cons_of_mem _ hx))]
    have h0 := h alt (List.mem_cons_self _ _)
    simp [apply_alt, patch_text_nosync, h0]

theorem selected_not_unregistered (env : BootEnv) (stage : Nat) (alt : alt_entry)
    (h : alt.unregistered = true) : alt.selected env stage = false := by
  unfold alt_entry.unregistered at h
  unfold alt_entry.selected
  simp only [Bool.and_eq_true, beq_iff_eq, decide_eq_true_eq] at h
  have : ¬ alt.errata_id < CPUFEATURE_NUMBER := Nat.not_lt.mpr h.2
  simp [this]

theorem filter_selected_drop_unregistered (env : BootEnv) (stage : Nat)
    (table : List alt_entry) :
    (table.filter (fun alt => !alt.unregistered)).filter (fun alt => alt.selected env stage) =
      table.filter (fun alt => alt.selected env stage) := by
  induction table with
  | nil => rfl
  | cons alt table ih =>
    by_cases hu : alt.unregistered = true
    · have hs := selected_not_unregistered env stage alt hu
      simp [List.filter, hu, hs, ih]
    · simp only [Bool.not_eq_true] at hu
      by_cases hs : alt.selected env stage = true
      · simp [List.filter, hu, hs, ih]
      · simp only [Bool.not_eq_true] at hs
        simp [List.filter, hu, hs, ih]

/-- Among the records of a registered feature `f`, the selected ones are all of
them when the probe of `f` holds, and none when it does not. -/
theorem filter_feature_selected (env : BootEnv) (stage f : Nat) (hf : f < CPUFEATURE_NUMBER)
    (table : List alt_entry) :
    (table.filter (fun alt => alt.selected env stage)).filter (alt_entry.of_feature f) =
      if feature_check env f stage = true then table.filter (alt_entry.of_feature f)
      else [] := by
  induction table with
  | nil => simp
  | cons alt table ih =>
    by_cases ho : alt.of_feature f = true
    · have ho2 := ho
      unfold alt_entry.of_feature at ho2
      simp only [Bool.and_eq_true, beq_iff_eq] at ho2
      have hsel : alt.selected env stage = feature_check env f stage := by
        unfold alt_entry.selected
        simp [ho2.1, ho2.2, hf]
      by_cases hc : feature_check env f stage = true
      · rw [hc] at hsel
        simp only [hc, if_true] at ih ⊢
        simp [List.filter, hsel, ho, ih]
      · simp only [Bool.not_eq_true] at hc
        rw [hc] at hsel
        simp only [hc] at ih ⊢
        simp only [Bool.false_eq_true, if_false] at ih ⊢
        simp [List.filter, hsel, ih]
    · simp only [Bool.not_eq_true] at ho
      by_cases hs : alt.selected env stage = true
      · simp only [List.filter, hs, ho]
        exact ih
      · simp only [Bool.not_eq_true] at hs
        simp only [List.filter, hs, ho]
        exact ih

theorem cpufeature_probe_congr (env env2 : BootEnv) (stage : Nat)
    (h : ∀ idx, feature_check env2 idx stage = feature_check env idx stage) :
    cpufeature_probe env2 stage = cpufeature_probe env stage := by
  unfold cpufeature_probe
  simp [h]

/-! ## Claims on `riscv_cpufeature_patch_func` -/

/-- C5: for every patch table, stage and initial memory, the engine performs
exactly the copies of the records with `vendor_id = 0`, `errata_id` below
`CPUFEATURE_NUMBER` and a probe that holds at the stage: the calls of the patch
primitive are those records in table order, the final memory is the result of
copying `alt_len` bytes from `alt_ptr` to `old_ptr` for each of them in that
order, and every byte outside their target ranges is unchanged. -/
theorem C5_patches_exactly_selected_records (env : BootEnv) (table : List alt_entry)
    (stage : Nat) (st : PatchState) :
    (riscv_cpufeature_patch_func env table stage st).patched =
      st.patched ++ table.filter (fun alt => alt.selected env stage) ∧
    (riscv_cpufeature_patch_func env table stage st).mem =
      (table.filter (fun alt => alt.selected env stage)).foldl apply_alt st.mem ∧
    (∀ a, (∀ alt ∈ table, alt.selected env stage = true →
          ¬ (alt.old_ptr ≤ a ∧ a < alt.old_ptr + alt.alt_len)) →
        (riscv_cpufeature_patch_func env table stage st).mem a = st.mem a) := by
  rw [patch_func_eq]
  refine ⟨rfl, rfl, ?_⟩
  intro a h
  apply foldl_apply_alt_outside
  intro alt halt
  rw [List.mem_filter] at halt
  exact h alt halt.1 halt.2

/-- Witness of C5: the table with the single record of vendor 0, feature 0 and
length 4.  At the boot stage, where the probe of feature 0 holds on a tree whose
hart names svpbmt, one call is made and memory is the old memory with exactly
the four bytes at the target replaced; at the early stage, where the probe
fails, no call is made and memory is untouched. -/
theorem C5_patches_exactly_selected_records_witness :
    (riscv_cpufeature_patch_func (sample_env dt_one_svpbmt) [svpbmt_record] 0
        { mem := sample_mem, patched := [] }).patched = [svpbmt_record] ∧
    (riscv_cpufeature_patch_func (sample_env dt_one_svpbmt) [svpbmt_record] 0
        { mem := sample_mem, patched := [] }).mem =
      patch_text_nosync sample_mem 0x1000 0x2000 4 ∧
    (riscv_cpufeature_patch_func (sample_env dt_one_svpbmt) [svpbmt_record] 2
        { mem := sample_mem, patched := [] }).patched = [] ∧
    (riscv_cpufeature_patch_func (sample_env dt_one_svpbmt) [svpbmt_record] 2
        { mem := sample_mem, patched := [] }).mem = sample_mem := by
  have hboot : [svpbmt_record].filter
      (fun alt => alt.selected (sample_env dt_one_svpbmt) 0) = [svpbmt_record] := by decide
  have hearly : [svpbmt_record].filter
      (fun alt => alt.selected (sample_env dt_one_svpbmt) 2) = [] := by decide
  have b := C5_patches_exactly_selected_records (sample_env dt_one_svpbmt) [svpbmt_record] 0
    { mem := sample_mem, patched := [] }
  have e := C5_patches_exactly_selected_records (sample_env dt_one_svpbmt) [svpbmt_record] 2
    { mem := sample_mem, patched := [] }
  rw [hboot] at b
  rw [hearly] at e
  exact ⟨b.1, b.2.1, e.1, e.2.1⟩

/-- C6: for every patch table and stage, the records of vendor 0 whose feature
id is not below `CPUFEATURE_NUMBER` are passed over: the engine ends in the same
memory, with the same calls of the patch primitive, as on the table without
those records, and no such record is among the calls it makes. -/
theorem C6_unregistered_records_are_skipped (env : BootEnv) (table : List alt_entry)
    (stage : Nat) (st : PatchState) :
    riscv_cpufeature_patch_func env table stage st =
      riscv_cpufeature_patch_func env (table.filter (fun alt => !alt.unregistered)) stage st ∧
    (∀ alt, alt.unregistered = true →
        alt ∉ table.filter (fun r => r.selected env stage)) ∧
    (riscv_cpufeature_patch_func env table stage st).patched =
      st.patched ++ table.filter (fun r => r.selected env stage) := by
  refine ⟨?_, ?_, ?_⟩
  · rw [patch_func_eq, patch_func_eq, filter_selected_drop_unregistered]
  · intro alt hu hmem
    rw [List.mem_filter] at hmem
    rw [selected_not_unregistered env stage alt hu] at hmem
    exact Bool.false_ne_true hmem.2
  · rw [patch_func_eq]

/-- A record of a registered feature `f` is selected at a stage exactly when
the probe of `f` holds there. -/
theorem selected_of_feature (env : BootEnv) (stage f : Nat) (hf : f < CPUFEATURE_NUMBER)
    (r : alt_entry) (ho : r.of_feature f = true) :
    r.selected env stage = feature_check env f stage := by
  unfold alt_entry.of_feature at ho
  simp only [Bool.and_eq_true, beq_iff_eq] at ho
  unfold alt_entry.selected
  simp [ho.1, ho.2, hf]

/-- After the copies of a list of records, a target byte of the record `r` of
the list holds the byte that its source had before, when no copy of the list
overwrites that source byte and no other record of the list targets the byte. -/
theorem foldl_apply_alt_written (l : List alt_entry) (mem : Mem) (r : alt_entry) (a : Nat)
    (hr : r ∈ l) (ha : r.old_ptr ≤ a ∧ a < r.old_ptr + r.alt_len)
    (hsrc : ∀ x ∈ l, ¬ (x.old_ptr ≤ r.alt_ptr + (a - r.old_ptr) ∧
      r.alt_ptr + (a - r.old_ptr) < x.old_ptr + x.alt_len))
    (hother : ∀ x ∈ l, x ≠ r → ¬ (x.old_ptr ≤ a ∧ a < x.old_ptr + x.alt_len)) :
    l.foldl apply_alt mem a = mem (r.alt_ptr + (a - r.old_ptr)) := by
  induction l generalizing mem with
  | nil => exact absurd hr (List.not_mem_nil _)
  | cons x l ih =>
    rw [List.foldl_cons]
    have hx := hsrc x (List.mem_cons_self _ _)
    have hkeep : apply_alt mem x (r.alt_ptr + (a - r.old_ptr)) =
        mem (r.alt_ptr + (a - r.old_ptr)) := by
      simp [apply_alt, patch_text_nosync, hx]
    by_cases hin : r ∈ l
    · rw [ih (apply_alt mem x) hin (fun y hy => hsrc y (List.mem_cons_of_mem _ hy))
        (fun y hy => hother y (List.mem_cons_of_mem _ hy)), hkeep]
    · have hxr : x = r := by
        rcases List.mem_cons.mp hr with h | h
        · exact h.symm
        · exact absurd h hin
      rw [foldl_apply_alt_outside l _ a (fun y hy => hother y (List.mem_cons_of_mem _ hy)
        (fun e => hin (e ▸ hy)))]
      rw [hxr]
      simp [apply_alt, patch_text_nosync, ha]

/-- C7: for every patch table and registered feature `f` whose probe fails at
stage `s1` and holds at stage `s2`, running the engine at `s1` and then at `s2`
writes each record of `f` (vendor 0) once, in the second run.  During the first
run no record of `f` is selected: the calls of the patch primitive hold none,
and memory is the result of the copies of the other selected records only, so
every byte outside their targets is unchanged.  During the second run every
record of `f` is selected: there is one call for each of them, in table order,
memory is the result of the copies of the records selected at `s2`, and a
target byte of a record of `f` ends up holding its replacement byte (when no
selected record overwrites that source byte or targets the same byte).  Every
record of `f` is patched as often as it stands in the table, all of it in the
second run.  The engine is a function of the table, the probe results and the
state: an environment with the same probe results at both stages ends in the
same state. -/
theorem C7_patched_once_at_the_later_stage (env : BootEnv) (table : List alt_entry)
    (f s1 s2 : Nat) (st : PatchState) (hf : f < CPUFEATURE_NUMBER)
    (h1 : feature_check env f s1 = false) (h2 : feature_check env f s2 = true) :
    (riscv_cpufeature_patch_func env table s1 st).patched =
      st.patched ++ table.filter (fun alt => alt.selected env s1) ∧
    (riscv_cpufeature_patch_func env table s2
        (riscv_cpufeature_patch_func env table s1 st)).patched =
      (riscv_cpufeature_patch_func env table s1 st).patched ++
        table.filter (fun alt => alt.selected env s2) ∧
    (table.filter (fun alt => alt.selected env s1)).filter (alt_entry.of_feature f) = [] ∧
    (table.filter (fun alt => alt.selected env s2)).filter (alt_entry.of_feature f) =
      table.filter (alt_entry.of_feature f) ∧
    (∀ alt, alt.of_feature f = true →
        (table.filter (fun r => r.selected env s1)).count alt = 0 ∧
        (table.filter (fun r => r.selected env s2)).count alt = table.count alt) ∧
    (∀ env2 : BootEnv,
        (∀ idx, feature_check env2 idx s1 = feature_check env idx s1) →
        (∀ idx, feature_check env2 idx s2 = feature_check env idx s2) →
        riscv_cpufeature_patch_func env2 table s2
            (riscv_cpufeature_patch_func env2 table s1 st) =
          riscv_cpufeature_patch_func env table s2
            (riscv_cpufeature_patch_func env table s1 st)) ∧
    (∀ r : alt_entry, r.of_feature f = true →
        r.selected env s1 = false ∧ r.selected env s2 = true) ∧
    (riscv_cpufeature_patch_func env table s1 st).mem =
      (table.filter (fun alt => alt.selected env s1)).foldl apply_alt st.mem ∧
    (riscv_cpufeature_patch_func env table s2
        (riscv_cpufeature_patch_func env table s1 st)).mem =
      (table.filter (fun alt => alt.selected env s2)).foldl apply_alt
        (riscv_cpufeature_patch_func env table s1 st).mem ∧
    (∀ a, (∀ x ∈ table, x.selected env s1 = true →
          ¬ (x.old_ptr ≤ a ∧ a < x.old_ptr + x.alt_len)) →
        (riscv_cpufeature_patch_func env table s1 st).mem a = st.mem a) ∧
    (∀ r ∈ table, r.of_feature f = true → ∀ a,
        (r.old_ptr ≤ a ∧ a < r.old_ptr + r.alt_len) →
        (∀ x ∈ table, x.selected env s2 = true →
          ¬ (x.old_ptr ≤ r.alt_ptr + (a - r.old_ptr) ∧
            r.alt_ptr + (a - r.old_ptr) < x.old_ptr + x.alt_len)) →
        (∀ x ∈ table, x.selected env s2 = true → x ≠ r →
          ¬ (x.old_ptr ≤ a ∧ a < x.old_ptr + x.alt_len)) →
        (riscv_cpufeature_patch_func env table s2
            (riscv_cpufeature_patch_func env table s1 st)).mem a =
          (riscv_cpufeature_patch_func env table s1 st).mem (r.alt_ptr + (a - r.old_ptr))) := by
  have e1 := filter_feature_selected env s1 f hf table
  have e2 := filter_feature_selected env s2 f hf table
  simp only [h1, Bool.false_eq_true, if_false] at e1
  simp only [h2, if_true] at e2
  have hsel : ∀ r : alt_entry, r.of_feature f = true →
      r.selected env s1 = false ∧ r.selected env s2 = true := by
    intro r ho
    rw [selected_of_feature env s1 f hf r ho, selected_of_feature env s2 f hf r ho]
    exact ⟨h1, h2⟩
  refine ⟨?_, ?_, e1, e2, ?_, ?_, hsel, ?_, ?_, ?_, ?_⟩
  · rw [patch_func_eq]
  · rw [patch_func_eq env table s2]
  · intro alt ho
    have c1 : ((table.filter (fun r => r.selected env s1)).filter
        (alt_entry.of_feature f)).count alt =
          (table.filter (fun r => r.selected env s1)).count alt :=
      List.count_filter ho
    have c2 : ((table.filter (fun r => r.selected env s2)).filter
        (alt_entry.of_feature f)).count alt =
          (table.filter (fun r => r.selected env s2)).count alt :=
      List.count_filter ho
    have c3 : (table.filter (alt_entry.of_feature f)).count alt = table.count alt :=
      List.count_filter ho
    rw [e1] at c1
    rw [e2, c3] at c2
    exact ⟨by simpa using c1.symm, c2.symm⟩
  · intro env2 g1 g2
    unfold riscv_cpufeature_patch_func
    rw [cpufeature_probe_congr env env2 s1 g1, cpufeature_probe_congr env env2 s2 g2]
  · rw [patch_func_eq]
  · rw [patch_func_eq env table s2]
  · intro a h
    rw [patch_func_eq]
    apply foldl_apply_alt_outside
    intro alt halt
    rw [List.mem_filter] at halt
    exact h alt halt.1 halt.2
  · intro r hr ho a ha hsrc hother
    rw [patch_func_eq env table s2]
    apply foldl_apply_alt_written _ _ r a
    · rw [List.mem_filter]
      exact ⟨hr, (hsel r ho).2⟩
    · exact ha
    · intro x hx
      rw [List.mem_filter] at hx
      exact hsrc x hx.1 hx.2
    · intro x hx
      rw [List.mem_filter] at hx
      exact hother x hx.1 hx.2

/-- Witness of C7: on the tree whose hart names svpbmt, the probe of feature 0
fails at the early stage (2) and holds at the boot stage (0).  The run at the
early stage makes no call and leaves memory as it was (the byte at `0x1000` is
still 1); the run at the boot stage makes the one call for the record of
feature 0 and copies its four bytes (the byte at `0x1000` becomes 2, the byte
that lies at `0x2000`), and the byte at `0x1004` behind the target keeps its
value 5. -/
theorem C7_patched_once_at_the_later_stage_witness :
    (riscv_cpufeature_patch_func (sample_env dt_one_svpbmt) [svpbmt_record, stray_record] 2
        { mem := tagged_mem, patched := [] }).patched = [] ∧
    (riscv_cpufeature_patch_func (sample_env dt_one_svpbmt) [svpbmt_record, stray_record] 0
        (riscv_cpufeature_patch_func (sample_env dt_one_svpbmt)
          [svpbmt_record, stray_record] 2 { mem := tagged_mem, patched := [] })).patched =
      [svpbmt_record] ∧
    (riscv_cpufeature_patch_func (sample_env dt_one_svpbmt) [svpbmt_record, stray_record] 2
        { mem := tagged_mem, patched := [] }).mem = tagged_mem ∧
    tagged_mem 0x1000 = 1 ∧
    (riscv_cpufeature_patch_func (sample_env dt_one_svpbmt) [svpbmt_record, stray_record] 0
        (riscv_cpufeature_patch_func (sample_env dt_one_svpbmt)
          [svpbmt_record, stray_record] 2 { mem := tagged_mem, patched := [] })).mem 0x1000 =
      2 ∧
    (riscv_cpufeature_patch_func (sample_env dt_one_svpbmt) [svpbmt_record, stray_record] 0
        (riscv_cpufeature_patch_func (sample_env dt_one_svpbmt)
          [svpbmt_record, stray_record] 2 { mem := tagged_mem, patched := [] })).mem 0x1004 =
      5 := by
  have h := C7_patched_once_at_the_later_stage (sample_env dt_one_svpbmt)
    [svpbmt_record, stray_record] 0 2 0 { mem := tagged_mem, patched := [] }
    (by decide) (by decide) (by decide)
  have hearly : [svpbmt_record, stray_record].filter
      (fun alt => alt.selected (sample_env dt_one_svpbmt) 2) = [] := by decide
  have hboot : [svpbmt_record, stray_record].filter
      (fun alt => alt.selected (sample_env dt_one_svpbmt) 0) = [svpbmt_record] := by decide
  obtain ⟨a, b, -, -, -, -, -, m1, m2, -, -⟩ := h
  rw [hearly] at a m1
  rw [a, hboot] at b
  rw [hboot, m1] at m2
  have m1b : (riscv_cpufeature_patch_func (sample_env dt_one_svpbmt)
      [svpbmt_record, stray_record] 2 { mem := tagged_mem, patched := [] }).mem =
        tagged_mem := m1
  refine ⟨a, b, m1b, by decide, ?_, ?_⟩
  · rw [m2]
    decide
  · rw [m2]
    decide

/-! ## Claims on the svpbmt probe -/

/-- C8 (the code departs from the claim): on the two-hart tree in which every
cpu node has an `interrupt-controller` child, hart 1 has an MMU and names
svpbmt, yet the boot-stage probe on the blob returns `false`: the walk leaves
at the child of hart 0, the first node that is not a cpu.  The same happens
when "/cpus" starts with a `cpu-map` child.  On the tree with a single matching
hart and no other node the probe returns `true`. -/
theorem C8_fdt_walk_stops_at_first_non_cpu_node :
    cpufeature_svpbmt_check_func (sample_env dt_second_hart_svpbmt)
        sample_stages.RISCV_ALTERNATIVES_BOOT = false ∧
    cpufeature_svpbmt_check_fdt dt_second_hart_svpbmt = false ∧
    cpufeature_svpbmt_check_fdt dt_cpu_map_first = false ∧
    cpufeature_svpbmt_check_fdt dt_one_svpbmt = true := by
  decide

/-- C9 (the code departs from the claim): on the two-hart tree in which
hart 1 names svpbmt, the check through the parsed tree returns `true` and the
check on the raw blob of the same tree returns `false`. -/
theorem C9_parsed_and_raw_checks_differ :
    cpufeature_svpbmt_check_of dt_second_hart_svpbmt = true ∧
    cpufeature_svpbmt_check_fdt dt_second_hart_svpbmt = false ∧
    cpufeature_svpbmt_check_of dt_cpu_map_first = true ∧
    cpufeature_svpbmt_check_fdt dt_cpu_map_first = false := by
  decide

/-! ## Claims on the page flag and on DMA synchronisation -/

theorem testBit_and_not_bit (flags nr b : Nat) :
    (and_not flags (1 <<< nr)).testBit b = (flags.testBit b && !decide (nr = b)) := by
  rw [testBit_and_not, Nat.one_shiftLeft, Nat.testBit_two_pow]

/-- C11: for every flags word and every bit number used as `PG_dcache_clean`,
`flush_dcache_page` leaves that bit clear and every other bit as it was; a
second call right after the first changes nothing and makes no `clear_bit`
call (the state, call counter included, is the one after the first call), so
two calls in a row make at most one `clear_bit` call. -/
theorem C11_flush_dcache_page_idempotent (PG_dcache_clean : Nat) (page : PageFlags) :
    (flush_dcache_page PG_dcache_clean page).flags.testBit PG_dcache_clean = false ∧
    (∀ b, b ≠ PG_dcache_clean →
        (flush_dcache_page PG_dcache_clean page).flags.testBit b = page.flags.testBit b) ∧
    flush_dcache_page PG_dcache_clean (flush_dcache_page PG_dcache_clean page) =
      flush_dcache_page PG_dcache_clean page ∧
    (flush_dcache_page PG_dcache_clean (flush_dcache_page PG_dcache_clean page)).clear_calls ≤
      page.clear_calls + 1 := by
  have hclear : (flush_dcache_page PG_dcache_clean page).flags.testBit PG_dcache_clean = false := by
    unfold flush_dcache_page
    by_cases h : page.flags.testBit PG_dcache_clean = true
    · rw [if_pos h]
      simp [testBit_and_not_bit]
    · rw [if_neg h]
      simpa using h
  have hidem : flush_dcache_page PG_dcache_clean (flush_dcache_page PG_dcache_clean page) =
      flush_dcache_page PG_dcache_clean page := by
    generalize flush_dcache_page PG_dcache_clean page = q at hclear
    unfold flush_dcache_page
    simp [hclear]
  refine ⟨hclear, ?_, hidem, ?_⟩
  · intro b hb
    unfold flush_dcache_page
    by_cases h : page.flags.testBit PG_dcache_clean = true
    · rw [if_pos h]
      have hne : ¬ PG_dcache_clean = b := fun e => hb e.symm
      simp [testBit_and_not_bit, hne]
    · rw [if_neg h]
  · rw [hidem]
    unfold flush_dcache_page
    by_cases h : page.flags.testBit PG_dcache_clean = true
    · rw [if_pos h]
    · rw [if_neg h]
      exact Nat.le_succ _

/-- C12, as stated, fails: in the direct cache-maintenance backend the direction
value 3, which is none of the three known directions, makes
`arch_sync_dma_for_device` and `arch_sync_dma_for_cpu` return without a trap
(their `default:` arm is a plain `break`). -/
theorem C12_direct_backend_does_not_trap :
    (3 ≠ sample_directions.DMA_TO_DEVICE ∧ 3 ≠ sample_directions.DMA_FROM_DEVICE ∧
      3 ≠ sample_directions.DMA_BIDIRECTIONAL) ∧
    (dma_noncoherent.arch_sync_dma_for_device sample_directions sample_phys_to_virt
        0x80000000 64 3).bug = false ∧
    (dma_noncoherent.arch_sync_dma_for_cpu sample_directions sample_phys_to_virt
        0x80000000 64 3).bug = false := by
  decide

/-- C12 (amended): for every direction value other than `DMA_TO_DEVICE`,
`DMA_FROM_DEVICE` and `DMA_BIDIRECTIONAL`, and every address and size, both
routines of both backends perform no cache maintenance and no firmware call;
the firmware-call backend traps (`BUG()`), the direct backend returns. -/
theorem C12_unknown_direction_does_nothing (d : DmaDirections) (phys_to_virt : Nat → Nat)
    (paddr size dir : Nat) (hT : dir ≠ d.DMA_TO_DEVICE) (hF : dir ≠ d.DMA_FROM_DEVICE)
    (hB : dir ≠ d.DMA_BIDIRECTIONAL) :
    dma_mapping.arch_sync_dma_for_device d paddr size dir = { events := [], bug := true } ∧
    dma_mapping.arch_sync_dma_for_cpu d paddr size dir = { events := [], bug := true } ∧
    dma_noncoherent.arch_sync_dma_for_device d phys_to_virt paddr size dir =
      { events := [], bug := false } ∧
    dma_noncoherent.arch_sync_dma_for_cpu d phys_to_virt paddr size dir =
      { events := [], bug := false } := by
  simp [dma_mapping.arch_sync_dma_for_device, dma_mapping.arch_sync_dma_for_cpu,
    dma_noncoherent.arch_sync_dma_for_device, dma_noncoherent.arch_sync_dma_for_cpu, hT, hF, hB]

/-- Witness of the amended C12 at the direction value 3. -/
theorem C12_unknown_direction_does_nothing_witness :
    dma_mapping.arch_sync_dma_for_device sample_directions 0x80000000 64 3 =
      { events := [], bug := true } ∧
    dma_noncoherent.arch_sync_dma_for_device sample_directions sample_phys_to_virt
      0x80000000 64 3 = { events := [], bug := false } :=
  have h := C12_unknown_direction_does_nothing sample_directions sample_phys_to_virt
    0x80000000 64 3 (by decide) (by decide) (by decide)
  ⟨h.1, h.2.2.1⟩

/-- C13: in the direct cache-maintenance backend, for every physical address
and size, `arch_sync_dma_for_device` makes exactly one maintenance call, over
the buffer at `phys_to_virt(paddr)` of the given size: clean for
`DMA_TO_DEVICE`, invalidate for `DMA_FROM_DEVICE`, flush for
`DMA_BIDIRECTIONAL` (the three enum values being distinct). -/
theorem C13_one_operation_by_direction (d : DmaDirections) (phys_to_virt : Nat → Nat)
    (paddr size : Nat) (hTF : d.DMA_TO_DEVICE ≠ d.DMA_FROM_DEVICE)
    (hTB : d.DMA_TO_DEVICE ≠ d.DMA_BIDIRECTIONAL)
    (hFB : d.DMA_FROM_DEVICE ≠ d.DMA_BIDIRECTIONAL) :
    dma_noncoherent.arch_sync_dma_for_device d phys_to_virt paddr size d.DMA_TO_DEVICE =
      { events := [DmaEvent.cmo CmoOp.CLEAN (phys_to_virt paddr) size], bug := false } ∧
    dma_noncoherent.arch_sync_dma_for_device d phys_to_virt paddr size d.DMA_FROM_DEVICE =
      { events := [DmaEvent.cmo CmoOp.INVAL (phys_to_virt paddr) size], bug := false } ∧
    dma_noncoherent.arch_sync_dma_for_device d phys_to_virt paddr size d.DMA_BIDIRECTIONAL =
      { events := [DmaEvent.cmo CmoOp.FLUSH (phys_to_virt paddr) size], bug := false } := by
  simp [dma_noncoherent.arch_sync_dma_for_device, ALT_CMO_OP, hTF.symm, hTB.symm, hFB.symm]

/-- Witness of C13 with the directions numbered 0, 1, 2. -/
theorem C13_one_operation_by_direction_witness :
    dma_noncoherent.arch_sync_dma_for_device sample_directions sample_phys_to_virt
        0x80000000 64 1 =
      { events := [DmaEvent.cmo CmoOp.CLEAN 0x81000000 64], bug := false } ∧
    dma_noncoherent.arch_sync_dma_for_device sample_directions sample_phys_to_virt
        0x80000000 64 2 =
      { events := [DmaEvent.cmo CmoOp.INVAL 0x81000000 64], bug := false } ∧
    dma_noncoherent.arch_sync_dma_for_device sample_directions sample_phys_to_virt
        0x80000000 64 0 =
      { events := [DmaEvent.cmo CmoOp.FLUSH 0x81000000 64], bug := false } :=
  C13_one_operation_by_direction sample_directions sample_phys_to_virt 0x80000000 64
    (by decide) (by decide) (by decide)

/-! ## The receive loop of the IPI controller -/

/-- With a dispatch routine that leaves the pending words alone, the
`for_each_set_bit` loop only extends the two traces. -/
theorem foldl_ipi_dispatch_quiet
    (handle : Nat → (Nat → Nat) → (Nat → Nat) × Int)
    (hquiet : ∀ hwirq words, (handle hwirq words).1 = words)
    (l : List Nat) (st : IpiState) :
    l.foldl (ipi_dispatch handle) st =
      { sbi_ipi_bits := st.sbi_ipi_bits
        dispatched := st.dispatched ++ l
        warned := st.warned ++ l.filter (fun h => decide ((handle h st.sbi_ipi_bits).2 ≠ 0))
        sie_clears := st.sie_clears } := by
  induction l generalizing st with
  | nil => simp
  | cons h l ih =>
    rw [List.foldl_cons, ih]
    by_cases he : (handle h st.sbi_ipi_bits).2 = 0
    · simp [ipi_dispatch, hquiet, he]
    · simp [ipi_dispatch, hquiet, he]

theorem mem_for_each_set_bit (w bits b : Nat) (hw : w < 2 ^ bits) :
    b ∈ for_each_set_bit w bits ↔ w.testBit b = true := by
  unfold for_each_set_bit
  rw [List.mem_filter, List.mem_range]
  constructor
  · exact fun h => h.2
  · intro h
    refine ⟨?_, h⟩
    by_contra hb
    have hle : bits ≤ b := Nat.le_of_not_lt hb
    have hlt : w < 2 ^ b := Nat.lt_of_lt_of_le hw (Nat.pow_le_pow_right (by decide) hle)
    rw [Nat.testBit_lt_two_pow hlt] at h
    exact Bool.false_ne_true h

theorem for_each_set_bit_zero (bits : Nat) : for_each_set_bit 0 bits = [] := by
  unfold for_each_set_bit
  simp

/-- The handler in closed form, for a dispatch routine that changes no pending
word: one round when the word is zero, two rounds otherwise. -/
theorem sbi_ipi_handle_irq_quiet
    (handle : Nat → (Nat → Nat) → (Nat → Nat) × Int) (bits cpu f : Nat) (st : IpiState)
    (hquiet : ∀ hwirq words, (handle hwirq words).1 = words) :
    sbi_ipi_handle_irq handle bits cpu (f + 2) st =
      some
        { sbi_ipi_bits := Function.update st.sbi_ipi_bits cpu 0
          dispatched := st.dispatched ++ for_each_set_bit (st.sbi_ipi_bits cpu) bits
          warned := st.warned ++ (for_each_set_bit (st.sbi_ipi_bits cpu) bits).filter
            (fun h => decide ((handle h (Function.update st.sbi_ipi_bits cpu 0)).2 ≠ 0))
          sie_clears := st.sie_clears + (if st.sbi_ipi_bits cpu = 0 then 1 else 2) } := by
  by_cases h0 : st.sbi_ipi_bits cpu = 0
  · simp [sbi_ipi_handle_irq, h0, for_each_set_bit_zero]
  · simp only [sbi_ipi_handle_irq, h0, if_false]
    rw [foldl_ipi_dispatch_quiet handle hquiet]
    simp

/-- C15: run on hart `cpu` with a dispatch routine that changes no pending
word, for every initial word `w` of that hart (a `BITS_PER_LONG`-bit value) the
handler comes to its end with any fuel of two loop rounds or more; it hands to
the dispatch routine exactly the set bits of `w`, each once and in ascending
order, whatever error codes the routine returns (those are only warned about);
it leaves the word of `cpu` at 0 and every other word as it was. -/
theorem C15_handler_dispatches_each_set_bit_once
    (handle : Nat → (Nat → Nat) → (Nat → Nat) × Int) (bits cpu fuel : Nat) (st : IpiState)
    (hquiet : ∀ hwirq words, (handle hwirq words).1 = words)
    (hw : st.sbi_ipi_bits cpu < 2 ^ bits) (hfuel : 2 ≤ fuel) :
    ∃ st2, sbi_ipi_handle_irq handle bits cpu fuel st = some st2 ∧
      st2.sbi_ipi_bits cpu = 0 ∧
      (∀ other, other ≠ cpu → st2.sbi_ipi_bits other = st.sbi_ipi_bits other) ∧
      st2.dispatched = st.dispatched ++ for_each_set_bit (st.sbi_ipi_bits cpu) bits ∧
      (∀ b, b ∈ for_each_set_bit (st.sbi_ipi_bits cpu) bits ↔
        (st.sbi_ipi_bits cpu).testBit b = true) ∧
      (for_each_set_bit (st.sbi_ipi_bits cpu) bits).Pairwise (fun a b => a < b) ∧
      (for_each_set_bit (st.sbi_ipi_bits cpu) bits).Nodup := by
  have hpair : (for_each_set_bit (st.sbi_ipi_bits cpu) bits).Pairwise (fun a b => a < b) :=
    List.Pairwise.filter _ (List.pairwise_lt_range bits)
  have hnodup : (for_each_set_bit (st.sbi_ipi_bits cpu) bits).Nodup :=
    List.Nodup.filter _ (List.nodup_range bits)
  obtain ⟨f, rfl⟩ : ∃ f, fuel = f + 2 := ⟨fuel - 2, by omega⟩
  refine ⟨_, sbi_ipi_handle_irq_quiet handle bits cpu f st hquiet, ?_, ?_, rfl,
    fun b => mem_for_each_set_bit _ _ b hw, hpair, hnodup⟩
  · simp
  · intro other hne
    simp [Function.update, hne]

/-- Witness of C15: hart 0 of the two-hart sample starts with bits 1, 3, 4
pending; the handler dispatches 1, 3, 4 in this order (the failure for 3 is
warned about and 4 is still dispatched), clears the word of hart 0 and leaves
the word of hart 1. -/
theorem C15_handler_dispatches_each_set_bit_once_witness :
    ∃ st2, sbi_ipi_handle_irq sample_dispatch 64 0 2 sample_ipi_state = some st2 ∧
      st2.sbi_ipi_bits 0 = 0 ∧ st2.sbi_ipi_bits 1 = 1 ∧ st2.dispatched = [1, 3, 4] := by
  obtain ⟨st2, h1, h2, h3, h4, -⟩ :=
    C15_handler_dispatches_each_set_bit_once sample_dispatch 64 0 2 sample_ipi_state
      (fun _ _ => rfl) (by decide) (by decide)
  refine ⟨st2, h1, h2, ?_, ?_⟩
  · rw [h3 1 (by decide)]
    rfl
  · rw [h4]
    decide

/-! ## The merge when the harts share an extension -/

theorem fill_hwcap_node_caps (cfg : Kconfig) (hw : Hwcap) (st : HwcapState) (node : CpuNode)
    (h : node.skipped = false) :
    fill_hwcap_node cfg hw st node =
      { elf_hwcap := merge_word st.elf_hwcap (node.caps cfg hw).this_hwcap
        riscv_isa0 := merge_word st.riscv_isa0 (node.caps cfg hw).this_isa } := by
  unfold CpuNode.skipped at h
  simp only [Bool.or_eq_false_iff, decide_eq_false_iff_not] at h
  unfold fill_hwcap_node CpuNode.caps
  cases hisa : node.isa with
  | none => simp [hisa] at h
  | some isa => simp [h.1]

theorem foldl_fill_hwcap_words (cfg : Kconfig) (hw : Hwcap) (nodes : List CpuNode)
    (st : HwcapState) (hok : ∀ n ∈ nodes, n.skipped = false) :
    nodes.foldl (fill_hwcap_node cfg hw) st =
      { elf_hwcap := (nodes.map (fun n => (n.caps cfg hw).this_hwcap)).foldl merge_word
          st.elf_hwcap
        riscv_isa0 := (nodes.map (fun n => (n.caps cfg hw).this_isa)).foldl merge_word
          st.riscv_isa0 } := by
  induction nodes generalizing st with
  | nil => rfl
  | cons n rest ih =>
    rw [List.foldl_cons, ih _ (fun m hm => hok m (List.mem_cons_of_mem _ hm)),
      fill_hwcap_node_caps cfg hw st n (hok n (List.mem_cons_self _ _))]
    rfl

theorem and_words_cons_cons (w v : Nat) (rest : List Nat) :
    and_words (w :: v :: rest) = w &&& and_words (v :: rest) := rfl

/-- From a non-zero accumulator the merge is a plain AND as long as the result
stays non-zero. -/
theorem foldl_merge_word_of_ne_zero (ws : List Nat) (acc : Nat) (hne : ws ≠ [])
    (h : acc &&& and_words ws ≠ 0) :
    ws.foldl merge_word acc = acc &&& and_words ws := by
  induction ws generalizing acc with
  | nil => exact absurd rfl hne
  | cons w rest ih =>
    have hacc : acc ≠ 0 := by
      intro h0
      rw [h0, Nat.zero_and] at h
      exact h rfl
    cases rest with
    | nil => simp [merge_word, and_words, hacc]
    | cons v rest =>
      rw [and_words_cons_cons, ← Nat.and_assoc] at h
      have hstep : acc &&& w ≠ 0 := by
        intro h0
        rw [h0, Nat.zero_and] at h
        exact h rfl
      rw [List.foldl_cons, and_words_cons_cons, ← Nat.and_assoc]
      have hm : merge_word acc w = acc &&& w := by simp [merge_word, hacc]
      rw [hm]
      exact ih (acc &&& w) (List.cons_ne_nil _ _) h

theorem foldl_merge_word_zero (ws : List Nat) (h : and_words ws ≠ 0) :
    ws.foldl merge_word 0 = and_words ws := by
  cases ws with
  | nil => rfl
  | cons w rest =>
    have hm : merge_word 0 w = w := by simp [merge_word]
    rw [List.foldl_cons, hm]
    cases rest with
    | nil => rfl
    | cons v rest =>
      rw [and_words_cons_cons] at h ⊢
      exact foldl_merge_word_of_ne_zero (v :: rest) w (List.cons_ne_nil _ _) h

/-- C17: for every list of harts with readable ISA strings (a non-zero AND makes
it non-empty), when the AND of the per-hart ISA bitmaps is non-zero, `riscv_isa[0]` ends as exactly
that AND, and when the AND of the per-hart legacy masks is non-zero,
`elf_hwcap` before the F-without-D correction ends as exactly that AND. -/
theorem C17_merge_is_and_when_harts_share_a_bit (cfg : Kconfig) (hw : Hwcap)
    (nodes : List CpuNode) (hok : ∀ n ∈ nodes, n.skipped = false) :
    (and_words (nodes.map (fun n => (n.caps cfg hw).this_isa)) ≠ 0 →
      (riscv_fill_hwcap_merged cfg hw nodes).riscv_isa0 =
        and_words (nodes.map (fun n => (n.caps cfg hw).this_isa)) ∧
      (riscv_fill_hwcap cfg hw nodes).riscv_isa0 =
        and_words (nodes.map (fun n => (n.caps cfg hw).this_isa))) ∧
    (and_words (nodes.map (fun n => (n.caps cfg hw).this_hwcap)) ≠ 0 →
      (riscv_fill_hwcap_merged cfg hw nodes).elf_hwcap =
        and_words (nodes.map (fun n => (n.caps cfg hw).this_hwcap))) := by
  have hisa : (riscv_fill_hwcap cfg hw nodes).riscv_isa0 =
      (riscv_fill_hwcap_merged cfg hw nodes).riscv_isa0 := by
    unfold riscv_fill_hwcap mask_f_without_d
    split_ifs <;> rfl
  rw [hisa]
  unfold riscv_fill_hwcap_merged
  rw [foldl_fill_hwcap_words cfg hw nodes _ hok]
  exact ⟨fun h => ⟨foldl_merge_word_zero _ h, foldl_merge_word_zero _ h⟩,
    fun h => foldl_merge_word_zero _ h⟩

/-- Witness of C17: the harts "rv64imafdc" and "rv64imac" share i, m, a, c. -/
theorem C17_merge_is_and_when_harts_share_a_bit_witness :
    (riscv_fill_hwcap_merged rv64_mmu letter_hwcap
        [hart 0 "rv64imafdc", hart 1 "rv64imac"]).riscv_isa0 = 0x1105 ∧
    (riscv_fill_hwcap_merged rv64_mmu letter_hwcap
        [hart 0 "rv64imafdc", hart 1 "rv64imac"]).elf_hwcap = 0x1105 := by
  have h := C17_merge_is_and_when_harts_share_a_bit rv64_mmu letter_hwcap
    [hart 0 "rv64imafdc", hart 1 "rv64imac"] (by decide)
  have h1 := (h.1 (by decide)).1
  have h2 := h.2 (by decide)
  rw [h1, h2]
  decide

/-! ## The line loop of the instruction-cache routines -/

/-- Clearing the low `k` bits rounds down to a multiple of `2 ^ k`. -/
theorem and_not_pow_two (x k : Nat) : and_not x (2 ^ k - 1) = 2 ^ k * (x / 2 ^ k) := by
  apply Nat.eq_of_testBit_eq
  intro i
  rw [testBit_and_not, Nat.testBit_two_pow_sub_one, Nat.testBit_mul_pow_two,
    ← Nat.shiftRight_eq_div_pow, Nat.testBit_shiftRight]
  by_cases h : i < k
  · have h2 : ¬ i ≥ k := Nat.not_le.mpr h
    simp [h, h2]
  · have h2 : i ≥ k := Nat.le_of_not_lt h
    have h3 : k + (i - k) = i := by omega
    simp [h, h2, h3]

theorem line_count_of_le (L limit tmp : Nat) (hL : 0 < L) (h : limit ≤ tmp) :
    line_count L limit tmp = 0 := by
  unfold line_count
  have : limit - tmp = 0 := by omega
  rw [this, Nat.zero_add]
  exact Nat.div_eq_of_lt (by omega)

theorem line_count_of_lt (L limit tmp : Nat) (hL : 0 < L) (h : tmp < limit) :
    line_count L limit tmp = line_count L limit (tmp + L) + 1 := by
  unfold line_count
  by_cases hd : L ≤ limit - tmp
  · have e : limit - tmp + (L - 1) = (limit - (tmp + L) + (L - 1)) + L := by omega
    rw [e, Nat.add_div_right _ hL]
  · have e : limit - (tmp + L) = 0 := by omega
    rw [e, Nat.zero_add, Nat.div_eq_of_lt (by omega : L - 1 < L)]
    exact Nat.div_eq_of_lt_le (by omega) (by omega)

/-- The line loop comes to its end when the fuel covers the number of lines,
and visits `tmp`, `tmp + L`, ... below the limit; no addition wraps because
the limit leaves room for one more line below `2 ^ 64`. -/
theorem icache_line_loop_eq (L limit : Nat) (hL : 0 < L) (hroom : limit + L ≤ ULONG_SIZE)
    (fuel tmp : Nat) (hfuel : line_count L limit tmp ≤ fuel) :
    icache_line_loop L limit fuel tmp = some (List.range' tmp (line_count L limit tmp) L) := by
  induction fuel generalizing tmp with
  | zero =>
    have h0 : line_count L limit tmp = 0 := Nat.le_zero.mp hfuel
    by_cases hlt : tmp < limit
    · rw [line_count_of_lt L limit tmp hL hlt] at h0
      exact absurd h0 (Nat.succ_ne_zero _)
    · simp [icache_line_loop, hlt, h0]
  | succ fuel ih =>
    by_cases hlt : tmp < limit
    · have hc := line_count_of_lt L limit tmp hL hlt
      have hmod : (tmp + L) % ULONG_SIZE = tmp + L := Nat.mod_eq_of_lt (by omega)
      have hf : line_count L limit (tmp + L) ≤ fuel := by omega
      simp only [icache_line_loop, hlt, if_true, hmod]
      rw [ih (tmp + L) hf, hc, List.range'_succ]
      rfl
    · have h0 := line_count_of_le L limit tmp hL (Nat.le_of_not_lt hlt)
      simp [icache_line_loop, hlt, h0]

/-- The upper limit of the loop is a multiple of the line size that leaves room
for one more line. -/
theorem ALIGN_room (e k : Nat) (hk : k < 64) : ALIGN e (2 ^ k) + 2 ^ k ≤ ULONG_SIZE := by
  unfold ALIGN
  rw [and_not_pow_two]
  have hy : (e + (2 ^ k - 1)) % ULONG_SIZE < ULONG_SIZE := Nat.mod_lt _ (by decide)
  generalize (e + (2 ^ k - 1)) % ULONG_SIZE = y at hy
  have hsplit : ULONG_SIZE = 2 ^ k * 2 ^ (64 - k) := by
    unfold ULONG_SIZE
    rw [← Nat.pow_add]
    congr 1
    omega
  have hq : y / 2 ^ k < 2 ^ (64 - k) := by
    apply Nat.div_lt_of_lt_mul
    rw [← hsplit]
    exact hy
  calc 2 ^ k * (y / 2 ^ k) + 2 ^ k = 2 ^ k * (y / 2 ^ k + 1) := by ring
    _ ≤ 2 ^ k * 2 ^ (64 - k) := Nat.mul_le_mul_left _ hq
    _ = ULONG_SIZE := hsplit.symm

/-- Without a wrap of `end + L - 1`, the upper limit is `end` rounded up. -/
theorem ALIGN_no_wrap (e k : Nat) (h : e + 2 ^ k ≤ ULONG_SIZE) :
    ALIGN e (2 ^ k) = 2 ^ k * ((e + (2 ^ k - 1)) / 2 ^ k) := by
  unfold ALIGN
  have hpos : 0 < 2 ^ k := Nat.two_pow_pos k
  rw [Nat.mod_eq_of_lt (by omega), and_not_pow_two]

theorem line_count_multiples (L q0 q1 : Nat) (hL : 0 < L) :
    line_count L (L * q1) (L * q0) = q1 - q0 := by
  unfold line_count
  rw [← Nat.mul_sub, Nat.mul_add_div hL, Nat.div_eq_of_lt (by omega : L - 1 < L)]
  rfl

/-- The visited lines are the multiples of `L` between the two rounded ends. -/
theorem mem_lines_of_range (L start end_ x : Nat) (hL : 0 < L) :
    x ∈ lines_of_range L start end_ ↔
      (L ∣ x ∧ round_down L start ≤ x ∧ x < round_up L end_) := by
  unfold lines_of_range round_down round_up
  rw [line_count_multiples L _ _ hL, List.mem_range']
  constructor
  · rintro ⟨i, hi, rfl⟩
    refine ⟨⟨start / L + i, by ring⟩, Nat.le_add_right _ _, ?_⟩
    calc L * (start / L) + L * i = L * (start / L + i) := by ring
      _ < L * ((end_ + (L - 1)) / L) := Nat.mul_lt_mul_of_pos_left (by omega) hL
  · rintro ⟨⟨c, rfl⟩, hlo, hhi⟩
    have h1 : start / L ≤ c := Nat.le_of_mul_le_mul_left hlo hL
    have h2 : c < (end_ + (L - 1)) / L := Nat.lt_of_mul_lt_mul_left hhi
    refine ⟨c - start / L, by omega, ?_⟩
    rw [← Nat.mul_add]
    congr 1
    omega

theorem round_down_le (L x : Nat) : round_down L x ≤ x := Nat.mul_div_le x L

theorem lt_round_down_add (L x : Nat) (hL : 0 < L) : x < round_down L x + L := by
  unfold round_down
  have := Nat.lt_mul_div_succ x hL
  rw [Nat.mul_add, Nat.mul_one] at this
  exact this

theorem le_round_up (L x : Nat) (hL : 0 < L) : x ≤ round_up L x := by
  unfold round_up
  have h1 := Nat.lt_mul_div_succ (x + (L - 1)) hL
  rw [Nat.mul_add, Nat.mul_one] at h1
  omega

theorem round_up_lt (L x : Nat) (hL : 0 < L) : round_up L x < x + L := by
  unfold round_up
  have h1 := Nat.mul_div_le (x + (L - 1)) L
  omega

/-- Every byte of `[start, end)` lies in a visited line. -/
theorem lines_of_range_cover (L start end_ a : Nat) (hL : 0 < L) (h1 : start ≤ a)
    (h2 : a < end_) : ∃ x ∈ lines_of_range L start end_, x ≤ a ∧ a < x + L := by
  refine ⟨round_down L a, ?_, round_down_le L a, lt_round_down_add L a hL⟩
  rw [mem_lines_of_range L start end_ _ hL]
  refine ⟨⟨a / L, rfl⟩, ?_, ?_⟩
  · exact Nat.mul_le_mul_left _ (Nat.div_le_div_right h1)
  · have hup := le_round_up L end_ hL
    have hlt : round_down L a < round_up L end_ :=
      Nat.lt_of_le_of_lt (round_down_le L a) (Nat.lt_of_lt_of_le h2 hup)
    exact hlt

/-- The start and limit of the loop, when `end + L - 1` does not wrap. -/
theorem icache_line_loop_no_wrap (k start end_ fuel : Nat)
    (hroom : end_ + 2 ^ k ≤ ULONG_SIZE) (hk : k < 64)
    (hfuel : line_count (2 ^ k) (round_up (2 ^ k) end_) (round_down (2 ^ k) start) ≤ fuel) :
    icache_line_loop (2 ^ k) (ALIGN end_ (2 ^ k)) fuel (and_not start (2 ^ k - 1)) =
      some (lines_of_range (2 ^ k) start end_) := by
  have hroom2 := ALIGN_room end_ k hk
  rw [ALIGN_no_wrap end_ k hroom] at hroom2 ⊢
  rw [and_not_pow_two]
  exact icache_line_loop_eq (2 ^ k) _ (Nat.two_pow_pos k) hroom2 fuel _ hfuel

/-! ## Claims on the instruction-cache routines -/

/-- C14 (the code departs from the claim): the comment above the macro says
that a range is served by flushing the whole instruction cache, yet with
64-byte lines `flush_icache_range(0, 64)` issues one line invalidation
`ICACHE_IVA` and the barrier `SYNC_IS`, and `flush_icache_range(0, 128)` issues
two line invalidations and the barrier: the operations depend on the range and
are not the single `fence.i` of `local_flush_icache_all`. -/
theorem C14_range_flush_depends_on_the_range :
    flush_icache_range 64 0 64 8 =
      some [IcacheOp.icache_iva 0, IcacheOp.sync_is] ∧
    flush_icache_range 64 0 128 8 =
      some [IcacheOp.icache_iva 0, IcacheOp.icache_iva 64, IcacheOp.sync_is] ∧
    flush_icache_range 64 0 64 8 ≠ some local_flush_icache_all ∧
    flush_icache_range 64 0 64 8 ≠ flush_icache_range 64 0 128 8 := by
  decide

/-- The trace of `flush_icache_range` for every start and end and a line size
`2 ^ k` with `k < 64`: one `ICACHE_IVA` for each value of `tmp` of the line loop,
then one `SYNC_IS`; a `fence.i` is never among the operations. -/
theorem flush_icache_range_trace (k start end_ fuel : Nat) (hk : k < 64)
    (hfuel : line_count (2 ^ k) (ALIGN end_ (2 ^ k)) (and_not start (2 ^ k - 1)) ≤ fuel) :
    flush_icache_range (2 ^ k) start end_ fuel =
      some ((List.range' (and_not start (2 ^ k - 1))
          (line_count (2 ^ k) (ALIGN end_ (2 ^ k)) (and_not start (2 ^ k - 1)))
          (2 ^ k)).map IcacheOp.icache_iva ++ [IcacheOp.sync_is]) ∧
    (∀ trace, flush_icache_range (2 ^ k) start end_ fuel = some trace →
      IcacheOp.fence_i ∉ trace ∧ trace ≠ local_flush_icache_all) := by
  have h : flush_icache_range (2 ^ k) start end_ fuel =
      some ((List.range' (and_not start (2 ^ k - 1))
          (line_count (2 ^ k) (ALIGN end_ (2 ^ k)) (and_not start (2 ^ k - 1)))
          (2 ^ k)).map IcacheOp.icache_iva ++ [IcacheOp.sync_is]) := by
    unfold flush_icache_range
    rw [icache_line_loop_eq (2 ^ k) _ (Nat.two_pow_pos k) (ALIGN_room end_ k hk) fuel _ hfuel]
    rfl
  refine ⟨h, ?_⟩
  intro trace ht
  rw [h] at ht
  have hmem : IcacheOp.fence_i ∉ trace := by
    rw [← Option.some.inj ht]
    simp
  refine ⟨hmem, ?_⟩
  intro he
  rw [he] at hmem
  exact hmem (List.mem_singleton.mpr rfl)

/-- C16, as stated, fails: with 64-byte lines and `start = 2^64 - 64`,
`end = 2^64 - 1` (so `start < end`, both 64-bit values), `ALIGN(end)` wraps to 0,
the loop body never runs, and both routines issue the barrier only; no byte of
`[start, end)` lies in an invalidated line. -/
theorem C16_no_line_when_align_wraps :
    2 ^ 64 - 64 < 2 ^ 64 - 1 ∧ 2 ^ 64 - 1 < ULONG_SIZE ∧
    ALIGN (2 ^ 64 - 1) 64 = 0 ∧
    flush_icache_range 64 (2 ^ 64 - 64) (2 ^ 64 - 1) 8 = some [IcacheOp.sync_is] ∧
    flush_icache_range_phy 64 (2 ^ 64 - 64) (2 ^ 64 - 1) 8 = some [IcacheOp.sync_is] := by
  decide

/-- C16 (amended): for a line size `L = 2 ^ k` with `k < 64` and every
`start < end` with `end ≤ 2^64 - L` (so that rounding `end` up does not wrap),
the loops of `flush_icache_range` and `flush_icache_range_phy` come to their end
and invalidate, in ascending order, exactly the multiples of `L` from `start`
rounded down to (excluding) `end` rounded up, then issue the barrier once;
every byte address of `[start, end)` lies in an invalidated line. -/
theorem C16_lines_of_the_rounded_range (k start end_ fuel : Nat) (hk : k < 64)
    (hse : start < end_) (hroom : end_ + 2 ^ k ≤ ULONG_SIZE)
    (hfuel : line_count (2 ^ k) (round_up (2 ^ k) end_) (round_down (2 ^ k) start) ≤ fuel) :
    flush_icache_range (2 ^ k) start end_ fuel =
      some ((lines_of_range (2 ^ k) start end_).map IcacheOp.icache_iva ++
        [IcacheOp.sync_is]) ∧
    flush_icache_range_phy (2 ^ k) start end_ fuel =
      some ((lines_of_range (2 ^ k) start end_).map IcacheOp.icache_ipa ++
        [IcacheOp.sync_is]) ∧
    (∀ x, x ∈ lines_of_range (2 ^ k) start end_ ↔
      (2 ^ k ∣ x ∧ round_down (2 ^ k) start ≤ x ∧ x < round_up (2 ^ k) end_)) ∧
    (round_down (2 ^ k) start ≤ start ∧ start < round_down (2 ^ k) start + 2 ^ k) ∧
    (end_ ≤ round_up (2 ^ k) end_ ∧ round_up (2 ^ k) end_ < end_ + 2 ^ k) ∧
    (∀ a, start ≤ a → a < end_ →
      ∃ x ∈ lines_of_range (2 ^ k) start end_, x ≤ a ∧ a < x + 2 ^ k) ∧
    lines_of_range (2 ^ k) start end_ ≠ [] ∧
    ((lines_of_range (2 ^ k) start end_).map IcacheOp.icache_iva ++
        [IcacheOp.sync_is]).count IcacheOp.sync_is = 1 ∧
    ((lines_of_range (2 ^ k) start end_).map IcacheOp.icache_ipa ++
        [IcacheOp.sync_is]).count IcacheOp.sync_is = 1 := by
  have hL : 0 < 2 ^ k := Nat.two_pow_pos k
  have hloop := icache_line_loop_no_wrap k start end_ fuel hroom hk hfuel
  refine ⟨?_, ?_, fun x => mem_lines_of_range _ _ _ x hL,
    ⟨round_down_le _ _, lt_round_down_add _ _ hL⟩, ⟨le_round_up _ _ hL, round_up_lt _ _ hL⟩,
    fun a h1 h2 => lines_of_range_cover _ _ _ a hL h1 h2, ?_, ?_, ?_⟩
  · unfold flush_icache_range
    rw [hloop]
    rfl
  · unfold flush_icache_range_phy
    rw [hloop]
    rfl
  · obtain ⟨x, hx, -⟩ := lines_of_range_cover (2 ^ k) start end_ start hL (Nat.le_refl _) hse
    exact List.ne_nil_of_mem hx
  · rw [List.count_append, List.count_eq_zero_of_not_mem (by simp)]
    rfl
  · rw [List.count_append, List.count_eq_zero_of_not_mem (by simp)]
    rfl

/-- Witness of the amended C16: 64-byte lines, the range `[100, 200)`. -/
theorem C16_lines_of_the_rounded_range_witness :
    flush_icache_range (2 ^ 6) 100 200 3 =
      some ((lines_of_range (2 ^ 6) 100 200).map IcacheOp.icache_iva ++ [IcacheOp.sync_is]) ∧
    lines_of_range (2 ^ 6) 100 200 = [64, 128, 192] :=
  ⟨(C16_lines_of_the_rounded_range 6 100 200 3 (by decide) (by decide) (by decide)
      (by decide)).1, by decide⟩

end Riscv
